import Mathlib

/-!
Verification of the similarity-ranking engine of the detection_system repository
(`scripts/cosine_similarity.py`).

The discrete text-processing layer (preprocessing, tokenization, stop-word
filtering, vocabulary construction, frequency counting) is modelled as
computable functions on `String`/`List Char`; the numeric layer (TF-IDF
weights, cosine similarity, rounding) lives in `ℝ`.

The script delegates TF-IDF vectorization to scikit-learn's
`TfidfVectorizer(max_features=…, stop_words='english')` followed by
`sklearn.metrics.pairwise.cosine_similarity`; that library code is not part of
this repository, so those components are modelled from the specification
(§4.2–§4.3): lowercase word tokens of length ≥ 2, the fixed English stop-word
list, vocabulary capping by total term frequency with first-encounter
tie-breaking, smoothed IDF `ln((1+n)/(1+df)) + 1`, L2 normalization, and
dot-product cosine.  Functions taken from the spec are marked
`Modelled from the spec:` in their doc comments.
-/

set_option maxRecDepth 40000

namespace DetectionSystem

/-- ASCII lower-casing of a single character, as Python's `str.lower` acts on
the ASCII inputs relevant here. -/
def lowerChar (c : Char) : Char :=
  if 'A' ≤ c ∧ c ≤ 'Z' then Char.ofNat (c.toNat + 32) else c

/-- Whitespace characters removed by Python's `str.strip`. -/
def isSpaceChar (c : Char) : Bool :=
  c = ' ' || c = '\t' || c = '\n' || c = '\r'

/-- Remove leading and trailing whitespace from a character list
(Python `str.strip`). -/
def stripChars (l : List Char) : List Char :=
  ((l.dropWhile isSpaceChar).reverse.dropWhile isSpaceChar).reverse

/-- `preprocess_text` from `cosine_similarity.py`: empty input stays empty,
otherwise lowercase and strip surrounding whitespace. -/
def preprocess_text (text : String) : String :=
  if text = "" then "" else String.mk (stripChars (text.data.map lowerChar))

/-- A word character for the tokenizer (`\w` of the token pattern
`(?u)\b\w\w+\b`, restricted to ASCII). -/
def isWordChar (c : Char) : Bool :=
  c.isAlphanum || c = '_'

/-- Splitting helper: `acc` is the current (reversed) run of word
characters. -/
def splitTokAux : List Char → List Char → List (List Char)
  | [], acc => if acc.isEmpty then [] else [acc.reverse]
  | c :: cs, acc =>
    if isWordChar c then splitTokAux cs (c :: acc)
    else if acc.isEmpty then splitTokAux cs [] else acc.reverse :: splitTokAux cs []

/-- Modelled from the spec: split a character list into its maximal runs of
word characters (scikit-learn's tokenizer keeps such runs as candidate
tokens). -/
def splitTok (l : List Char) : List (List Char) :=
  splitTokAux l []

/-- Modelled from the spec: scikit-learn's fixed English stop-word list
(`sklearn.feature_extraction.text.ENGLISH_STOP_WORDS`). -/
def stopWords : List String :=
  ["a", "about", "above", "across", "after", "afterwards", "again", "against",
   "all", "almost", "alone", "along", "already", "also", "although", "always",
   "am", "among", "amongst", "amoungst", "amount", "an", "and", "another",
   "any", "anyhow", "anyone", "anything", "anyway", "anywhere", "are",
   "around", "as", "at", "back", "be", "became", "because", "become",
   "becomes", "becoming", "been", "before", "beforehand", "behind", "being",
   "below", "beside", "besides", "between", "beyond", "bill", "both",
   "bottom", "but", "by", "call", "can", "cannot", "cant", "co", "con",
   "could", "couldnt", "cry", "de", "describe", "detail", "do", "done",
   "down", "due", "during", "each", "eg", "eight", "either", "eleven",
   "else", "elsewhere", "empty", "enough", "etc", "even", "ever", "every",
   "everyone", "everything", "everywhere", "except", "few", "fifteen",
   "fifty", "fill", "find", "fire", "first", "five", "for", "former",
   "formerly", "forty", "found", "four", "from", "front", "full", "further",
   "get", "give", "go", "had", "has", "hasnt", "have", "he", "hence", "her",
   "here", "hereafter", "hereby", "herein", "hereupon", "hers", "herself",
   "him", "himself", "his", "how", "however", "hundred", "i", "ie", "if",
   "in", "inc", "indeed", "interest", "into", "is", "it", "its", "itself",
   "keep", "last", "latter", "latterly", "least", "less", "ltd", "made",
   "many", "may", "me", "meanwhile", "might", "mill", "mine", "more",
   "moreover", "most", "mostly", "move", "much", "must", "my", "myself",
   "name", "namely", "neither", "never", "nevertheless", "next", "nine",
   "no", "nobody", "none", "noone", "nor", "not", "nothing", "now",
   "nowhere", "of", "off", "often", "on", "once", "one", "only", "onto",
   "or", "other", "others", "otherwise", "our", "ours", "ourselves", "out",
   "over", "own", "part", "per", "perhaps", "please", "put", "rather", "re",
   "same", "see", "seem", "seemed", "seeming", "seems", "serious", "several",
   "she", "should", "show", "side", "since", "sincere", "six", "sixty", "so",
   "some", "somehow", "someone", "something", "sometime", "sometimes",
   "somewhere", "still", "such", "system", "take", "ten", "than", "that",
   "the", "their", "them", "themselves", "then", "thence", "there",
   "thereafter", "thereby", "therefore", "therein", "thereupon", "these",
   "they", "thick", "thin", "third", "this", "those", "though", "three",
   "through", "throughout", "thru", "thus", "to", "together", "too", "top",
   "toward", "towards", "twelve", "twenty", "two", "un", "under", "until",
   "up", "upon", "us", "very", "via", "was", "we", "well", "were", "what",
   "whatever", "when", "whence", "whenever", "where", "whereafter",
   "whereas", "whereby", "wherein", "whereupon", "wherever", "whether",
   "which", "while", "whither", "who", "whoever", "whole", "whom", "whose",
   "why", "will", "with", "within", "without", "would", "yet", "you",
   "your", "yours", "yourself", "yourselves"]

/-- Modelled from the spec: tokens of a document — lowercase the string, keep
maximal word-character runs of length at least 2, and discard stop words. -/
def docTokens (s : String) : List String :=
  (((splitTok (s.data.map lowerChar)).filter (fun t => 2 ≤ t.length)).map
      (fun t => String.mk t)).filter (fun t => ¬ stopWords.contains t)

/-- First-seen deduplication helper; `seen` holds the strings already
emitted. -/
def dedupAux : List String → List String → List String
  | [], _ => []
  | a :: l, seen =>
    if seen.contains a then dedupAux l seen else a :: dedupAux l (a :: seen)

/-- First-seen deduplication (keeps the first occurrence of each string, in
encounter order). -/
def dedupFS (l : List String) : List String :=
  dedupAux l []

/-- Modelled from the spec: the vocabulary of a document collection, in
first-encounter order. -/
def vocabOf (docs : List (List String)) : List String :=
  dedupFS docs.flatten

/-- Modelled from the spec: total term frequency of a term across a document
collection. -/
def totalTf (docs : List (List String)) (t : String) : ℕ :=
  docs.flatten.count t

/-- Modelled from the spec: number of documents of the collection containing a
term (document frequency). -/
def docFreq (docs : List (List String)) (t : String) : ℕ :=
  (docs.filter (fun d => d.contains t)).length

/-- Sort-by-key relation: `a` precedes `b` when its key is at least `b`'s
(descending order on keys). -/
def keyRel {α β : Type} [LE β] (k : α → β) : α → α → Prop :=
  fun a b => k b ≤ k a

instance {α β : Type} [LinearOrder β] (k : α → β) : IsTotal α (keyRel k) :=
  ⟨fun a b => le_total (k b) (k a)⟩

instance {α β : Type} [LinearOrder β] (k : α → β) : IsTrans α (keyRel k) :=
  ⟨fun _ _ _ h h2 => le_trans h2 h⟩

instance keyRelDecidable {α β : Type} [LinearOrder β] (k : α → β) :
    DecidableRel (keyRel k) :=
  fun a b => inferInstanceAs (Decidable (k b ≤ k a))

/-- Modelled from the spec: the retained vocabulary.  If the vocabulary
exceeds `maxF` terms, keep only the top `maxF` terms ranked by total term
frequency, ties broken by first-encounter order (a stable descending sort
followed by truncation). -/
def cappedVocab (docs : List (List String)) (maxF : ℕ) : List String :=
  let v := vocabOf docs
  if v.length ≤ maxF then v
  else (v.insertionSort (keyRel (totalTf docs))).take maxF

/-- Modelled from the spec: smoothed inverse document frequency,
`ln((1 + total_docs) / (1 + docs_containing_term)) + 1`. -/
noncomputable def idf (docs : List (List String)) (t : String) : ℝ :=
  Real.log ((1 + docs.length) / (1 + docFreq docs t)) + 1

/-- Modelled from the spec: the (unnormalized) TF-IDF vector of one document
over the retained vocabulary; cosine similarity divides by the norms, so L2
normalization cancels and is left to `cosineSim`. -/
noncomputable def tfidfVec (docs : List (List String)) (vocab : List String)
    (d : List String) : List ℝ :=
  vocab.map (fun t => (d.count t : ℝ) * idf docs t)

/-- Dot product of two real vectors given as lists. -/
noncomputable def dotp (u v : List ℝ) : ℝ :=
  ∑ i ∈ Finset.range (min u.length v.length), u.getD i 0 * v.getD i 0

/-- Modelled from the spec: cosine similarity as dot product over the product
of Euclidean norms (`0` when either vector is zero, since division by zero
yields zero). -/
noncomputable def cosineSim (u v : List ℝ) : ℝ :=
  dotp u v / (Real.sqrt (dotp u u) * Real.sqrt (dotp v v))

/-- The tokenized document collection of one field: the query prepended to
the corpus. -/
def fieldDocs (q : String) (corpus : List String) : List (List String) :=
  (q :: corpus).map docTokens

/-- One field's `fit_transform` + `cosine_similarity` call on the query
prepended to the corpus: `none` models the exception raised on an empty
vocabulary (all tokens filtered out), otherwise the list of cosine
similarities of each corpus string against the query. -/
noncomputable def trySims (q : String) (corpus : List String) (maxF : ℕ) :
    Option (List ℝ) :=
  if cappedVocab (fieldDocs q corpus) maxF = [] then none
  else some (corpus.map (fun c =>
    cosineSim
      (tfidfVec (fieldDocs q corpus) (cappedVocab (fieldDocs q corpus) maxF)
        (docTokens q))
      (tfidfVec (fieldDocs q corpus) (cappedVocab (fieldDocs q corpus) maxF)
        (docTokens c))))

/-- Python's `round(x, 4)` on the real model: round to 4 decimal places. -/
noncomputable def round4 (x : ℝ) : ℝ :=
  (round (x * 10000) : ℤ) / 10000

/-- One field's similarity list as computed by `calculate_cosine_similarity`
(lines 49–65 for titles with `maxF = 1000`, lines 68–84 for abstracts with
`maxF = 2000`): preprocess the query and the candidate strings; when the
processed query is empty, the candidate list is empty, or vectorization
fails, fall back to all-zero similarities. -/
noncomputable def fieldSims (q : String) (cands : List String) (maxF : ℕ) :
    List ℝ :=
  if preprocess_text q ≠ "" ∧ cands.map preprocess_text ≠ [] then
    match trySims (preprocess_text q) (cands.map preprocess_text) maxF with
    | some sims => sims
    | none => List.replicate cands.length 0
  else List.replicate cands.length 0

/-- One entry of the result list of `calculate_cosine_similarity`. -/
structure CandidateResult where
  index : ℕ
  title : String
  abstract : String
  title_similarity : ℝ
  abstract_similarity : ℝ
  overall_similarity : ℝ

/-- The record built by the loop body for index `i` (total description: the
abstract read with a default, valid whenever `i` is in range). -/
noncomputable def recAt (ets eabs : List String) (tsims asims : List ℝ)
    (i : ℕ) : CandidateResult :=
  { index := i, title := ets.getD i "", abstract := eabs.getD i "",
    title_similarity := round4 (tsims.getD i 0),
    abstract_similarity := round4 (asims.getD i 0),
    overall_similarity :=
      round4 (tsims.getD i 0 * 0.4 + asims.getD i 0 * 0.6) }

/-- The result-building loop (lines 87–101): for each `i` in
`range (len existing_titles)`, read the similarities (defaulting to `0.0`
beyond the end of a similarity list), combine them as
`title_sim * 0.4 + abstract_sim * 0.6`, and build the record; accessing
`existing_abstracts[i]` out of range raises an `IndexError`, modelled as the
error case. -/
noncomputable def buildGo (ets eabs : List String) (tsims asims : List ℝ) :
    List ℕ → Except String (List CandidateResult)
  | [] => .ok []
  | i :: rest =>
    match eabs[i]? with
    | none => .error "list index out of range"
    | some ab =>
      match buildGo ets eabs tsims asims rest with
      | .error e => .error e
      | .ok tl =>
        .ok ({ index := i, title := ets.getD i "", abstract := ab,
               title_similarity := round4 (tsims.getD i 0),
               abstract_similarity := round4 (asims.getD i 0),
               overall_similarity :=
                 round4 (tsims.getD i 0 * 0.4 + asims.getD i 0 * 0.6) } :: tl)

/-- `calculate_cosine_similarity` from `cosine_similarity.py`: compute both
fields' similarity lists, build the per-candidate records, and sort them by
`overall_similarity` descending with Python's stable `list.sort`.  An
uncaught `IndexError` from the loop propagates to the caller as the error
case. -/
noncomputable def calculate_cosine_similarity (pt pc : String)
    (ets eabs : List String) : Except String (List CandidateResult) :=
  match buildGo ets eabs (fieldSims pt ets 1000) (fieldSims pc eabs 2000)
      (List.range ets.length) with
  | .error e => .error e
  | .ok rs => .ok (rs.insertionSort (keyRel CandidateResult.overall_similarity))

/-- The success-path output assembled by `main` (lines 132–138). -/
structure OutputRec where
  success : Bool
  similarities : List CandidateResult
  total_comparisons : ℕ

/-- `main` from `cosine_similarity.py`, after JSON parsing: the existing
researches arrive as (title, abstract) pairs, so the two candidate lists
always have equal length; on success the output carries the result list and
`total_comparisons = len(results)`. -/
noncomputable def runMain (pt pc : String) (researches : List (String × String)) :
    Except String OutputRec :=
  match calculate_cosine_similarity pt pc (researches.map Prod.fst)
      (researches.map Prod.snd) with
  | .error e => .error e
  | .ok rs => .ok ⟨true, rs, rs.length⟩

/-! ### Concrete input for the rounding counterexample (C3) and the
rounded-tie property (C9): five title documents engineered so that every
term has document frequency 3, making the IDF weight a common positive
factor that cancels in the cosine; the query/candidate raw count vectors
have integer norms 85, 85 and 86, giving exact cosines 1/7225 and 1/7310. -/

def qTitle : String :=
  String.intercalate " " (["ss"] ++ List.replicate 84 "xx" ++
    List.replicate 10 "yy" ++ List.replicate 8 "zz" ++ List.replicate 2 "ww")

def c1Title : String :=
  String.intercalate " " (["ss"] ++ List.replicate 84 "ga" ++
    List.replicate 10 "gb" ++ List.replicate 8 "gc" ++ List.replicate 2 "gd")

def c2Title : String :=
  String.intercalate " " (["ss"] ++ List.replicate 85 "ha" ++
    List.replicate 13 "hb" ++ List.replicate 1 "hc")

def fTitle : String := "xx yy zz ww ga gb gc gd ha hb hc"

def cexTitles : List String := [c1Title, c2Title, fTitle, fTitle]

def cexAbstracts : List String := ["", "", "", ""]

def qToks : List String :=
  ["ss"] ++ List.replicate 84 "xx" ++ List.replicate 10 "yy" ++
    List.replicate 8 "zz" ++ List.replicate 2 "ww"

def c1Toks : List String :=
  ["ss"] ++ List.replicate 84 "ga" ++ List.replicate 10 "gb" ++
    List.replicate 8 "gc" ++ List.replicate 2 "gd"

def c2Toks : List String :=
  ["ss"] ++ List.replicate 85 "ha" ++ List.replicate 13 "hb" ++
    List.replicate 1 "hc"

def fToks : List String :=
  ["xx", "yy", "zz", "ww", "ga", "gb", "gc", "gd", "ha", "hb", "hc"]

def cexDocs : List (List String) := [qToks, c1Toks, c2Toks, fToks, fToks]

def cexVocab : List String :=
  ["ss", "xx", "yy", "zz", "ww", "ga", "gb", "gc", "gd", "ha", "hb", "hc"]

/-- The common IDF factor `ln((1+5)/(1+3)) + 1` of the engineered input. -/
noncomputable def cexIdf : ℝ := Real.log (3 / 2) + 1

/-- Raw term-count vector of the query title over `cexVocab`. -/
noncomputable def qVecR : List ℝ := [1, 84, 10, 8, 2, 0, 0, 0, 0, 0, 0, 0]

/-- Raw term-count vector of the first candidate title over `cexVocab`. -/
noncomputable def c1VecR : List ℝ := [1, 0, 0, 0, 0, 84, 10, 8, 2, 0, 0, 0]

/-- Raw term-count vector of the second candidate title over `cexVocab`. -/
noncomputable def c2VecR : List ℝ := [1, 0, 0, 0, 0, 0, 0, 0, 0, 85, 13, 1]

/-- The result list of the engineered input. -/
noncomputable def cexResult : List CandidateResult :=
  ((List.range cexTitles.length).map
    (recAt cexTitles cexAbstracts (fieldSims qTitle cexTitles 1000)
      (fieldSims "" cexAbstracts 2000))).insertionSort
    (keyRel CandidateResult.overall_similarity)

/-- The record built for candidate 0 of the engineered input. -/
noncomputable def cexRec0 : CandidateResult :=
  recAt cexTitles cexAbstracts (fieldSims qTitle cexTitles 1000)
    (fieldSims "" cexAbstracts 2000) 0

/-! ### Concrete input for the vocabulary-capping counterexample (C7): a
query title consisting of the single term "qq" and a flooding candidate
title that repeats 1000 distinct four-character words three times each, so
that the title vocabulary has 1001 terms and the cap of 1000 discards the
query's own term (total frequency 2 < 3). -/

def joinW : List (List Char) → List Char
  | [] => []
  | [w] => w
  | w :: x :: ws => w ++ ' ' :: joinW (x :: ws)

def floodWordChars (i : ℕ) : List Char :=
  ['x', Char.ofNat (48 + i / 100), Char.ofNat (48 + i / 10 % 10),
   Char.ofNat (48 + i % 10)]

def floodWord (i : ℕ) : String := String.mk (floodWordChars i)

def floodIdx : List ℕ := (List.range 1000).flatMap (fun i => List.replicate 3 i)

def floodToks : List String := floodIdx.map floodWord

def floodVocab : List String := (List.range 1000).map floodWord

def floodTitle : String := String.mk (joinW (floodIdx.map floodWordChars))

def floodPt : String := "qq"

def floodPc : String := "zz"

def floodEts : List String := [floodPt, floodTitle]

def floodEabs : List String := [floodPc, floodPc]

def floodDocs : List (List String) := [["qq"], ["qq"], floodToks]

noncomputable def floodResult : List CandidateResult :=
  ((List.range floodEts.length).map
    (recAt floodEts floodEabs (fieldSims floodPt floodEts 1000)
      (fieldSims floodPc floodEabs 2000))).insertionSort
    (keyRel CandidateResult.overall_similarity)

noncomputable def floodRec0 : CandidateResult :=
  recAt floodEts floodEabs (fieldSims floodPt floodEts 1000)
    (fieldSims floodPc floodEabs 2000) 0

/-! ### Helper lemmas: rounding -/

theorem round_eq_of {x : ℝ} {z : ℤ} (h1 : (z : ℝ) ≤ x + 1 / 2)
    (h2 : x + 1 / 2 < z + 1) : round x = z := by
  rw [round_eq]
  exact Int.floor_eq_iff.mpr ⟨h1, h2⟩

theorem round4_zero : round4 0 = 0 := by
  simp [round4]

theorem round4_one : round4 1 = 1 := by
  have h : round ((1 : ℝ) * 10000) = 10000 := by
    apply round_eq_of <;> norm_num
  rw [round4, h]
  norm_num

theorem round4_nonneg {x : ℝ} (hx : 0 ≤ x) : 0 ≤ round4 x := by
  have h : (0 : ℤ) ≤ round (x * 10000) := by
    rw [round_eq]
    exact Int.le_floor.mpr (by push_cast; linarith)
  rw [round4]
  have h0 : (0 : ℝ) ≤ (round (x * 10000) : ℤ) := Int.cast_nonneg.mpr h
  positivity

theorem round4_le_one {x : ℝ} (hx : x ≤ 1) : round4 x ≤ 1 := by
  have hfl : (⌊(10000 : ℝ) + 1 / 2⌋ : ℤ) = 10000 := by
    apply Int.floor_eq_iff.mpr
    constructor <;> norm_num
  have h : round (x * 10000) ≤ 10000 := by
    rw [round_eq]
    calc ⌊x * 10000 + 1 / 2⌋ ≤ ⌊(10000 : ℝ) + 1 / 2⌋ :=
          Int.floor_le_floor (by linarith)
      _ = 10000 := hfl
  rw [round4, div_le_one (by norm_num)]
  exact_mod_cast h

/-! ### Helper lemmas: dot products and cosine similarity -/

theorem list_getD_nonneg {u : List ℝ} (hu : ∀ x ∈ u, 0 ≤ x) (i : ℕ) :
    0 ≤ u.getD i 0 := by
  rw [List.getD_eq_getElem?_getD]
  cases h : u[i]? with
  | none => simp
  | some a =>
    obtain ⟨hi, rfl⟩ := List.getElem?_eq_some.mp h
    exact hu _ (List.getElem_mem hi)

theorem dotp_nonneg {u v : List ℝ} (hu : ∀ x ∈ u, 0 ≤ x)
    (hv : ∀ x ∈ v, 0 ≤ x) : 0 ≤ dotp u v :=
  Finset.sum_nonneg fun i _ =>
    mul_nonneg (list_getD_nonneg hu i) (list_getD_nonneg hv i)

theorem dotp_self_nonneg (u : List ℝ) : 0 ≤ dotp u u :=
  Finset.sum_nonneg fun _ _ => mul_self_nonneg _

theorem dotp_sq_le (u v : List ℝ) : dotp u v ^ 2 ≤ dotp u u * dotp v v := by
  have h := Finset.sum_mul_sq_le_sq_mul_sq (Finset.range (min u.length v.length))
    (fun i => u.getD i 0) (fun i => v.getD i 0)
  refine le_trans h (mul_le_mul ?_ ?_ (Finset.sum_nonneg fun i _ => sq_nonneg _) (dotp_self_nonneg u))
  · rw [dotp, min_self]
    refine le_trans (le_of_eq (Finset.sum_congr rfl fun i _ => (pow_two _))) ?_
    exact Finset.sum_le_sum_of_subset_of_nonneg
      (Finset.range_subset.mpr (min_le_left _ _))
      (fun i _ _ => mul_self_nonneg _)
  · rw [dotp, min_self]
    refine le_trans (le_of_eq (Finset.sum_congr rfl fun i _ => (pow_two _))) ?_
    exact Finset.sum_le_sum_of_subset_of_nonneg
      (Finset.range_subset.mpr (min_le_right _ _))
      (fun i _ _ => mul_self_nonneg _)

theorem dotp_le_sqrt_mul_sqrt (u v : List ℝ) :
    dotp u v ≤ Real.sqrt (dotp u u) * Real.sqrt (dotp v v) := by
  have h1 : dotp u v ≤ |dotp u v| := le_abs_self _
  have h2 : |dotp u v| = Real.sqrt (dotp u v ^ 2) := (Real.sqrt_sq_eq_abs _).symm
  have h3 : Real.sqrt (dotp u v ^ 2) ≤ Real.sqrt (dotp u u * dotp v v) :=
    Real.sqrt_le_sqrt (dotp_sq_le u v)
  rw [Real.sqrt_mul (dotp_self_nonneg u)] at h3
  linarith

theorem cosineSim_nonneg {u v : List ℝ} (hu : ∀ x ∈ u, 0 ≤ x)
    (hv : ∀ x ∈ v, 0 ≤ x) : 0 ≤ cosineSim u v :=
  div_nonneg (dotp_nonneg hu hv)
    (mul_nonneg (Real.sqrt_nonneg _) (Real.sqrt_nonneg _))

theorem cosineSim_le_one (u v : List ℝ) : cosineSim u v ≤ 1 := by
  rcases eq_or_lt_of_le
      (mul_nonneg (Real.sqrt_nonneg (dotp u u)) (Real.sqrt_nonneg (dotp v v)))
    with h | h
  · rw [cosineSim, ← h, div_zero]
    norm_num
  · rw [cosineSim, div_le_one h]
    exact dotp_le_sqrt_mul_sqrt u v

theorem cosineSim_self {u : List ℝ} (h : 0 < dotp u u) : cosineSim u u = 1 := by
  rw [cosineSim, Real.mul_self_sqrt (le_of_lt h)]
  exact div_self (ne_of_gt h)

/-! ### Helper lemmas: IDF weights and TF-IDF vectors -/

theorem docFreq_le_length (docs : List (List String)) (t : String) :
    docFreq docs t ≤ docs.length :=
  List.length_filter_le _ _

theorem one_le_idf (docs : List (List String)) (t : String) :
    1 ≤ idf docs t := by
  have hd : (0 : ℝ) < 1 + (docFreq docs t : ℝ) := by positivity
  have h1 : (1 : ℝ) ≤ (1 + (docs.length : ℝ)) / (1 + (docFreq docs t : ℝ)) := by
    rw [one_le_div hd]
    have := (Nat.cast_le (α := ℝ)).mpr (docFreq_le_length docs t)
    linarith
  have h2 := Real.log_nonneg h1
  rw [idf]
  linarith

theorem idf_pos (docs : List (List String)) (t : String) : 0 < idf docs t :=
  lt_of_lt_of_le one_pos (one_le_idf docs t)

theorem tfidfVec_nonneg (docs : List (List String)) (vocab : List String)
    (d : List String) : ∀ x ∈ tfidfVec docs vocab d, 0 ≤ x := by
  intro x hx
  simp only [tfidfVec, List.mem_map] at hx
  obtain ⟨t, _, rfl⟩ := hx
  exact mul_nonneg (Nat.cast_nonneg _) (le_of_lt (idf_pos docs t))

/-! ### Helper lemmas: per-field similarity lists -/

theorem trySims_eq_some {q : String} {corpus : List String} {maxF : ℕ}
    {l : List ℝ} (h : trySims q corpus maxF = some l) :
    l = corpus.map (fun c =>
      cosineSim
        (tfidfVec (fieldDocs q corpus) (cappedVocab (fieldDocs q corpus) maxF)
          (docTokens q))
        (tfidfVec (fieldDocs q corpus) (cappedVocab (fieldDocs q corpus) maxF)
          (docTokens c))) := by
  unfold trySims at h
  split at h
  · exact absurd h (by simp)
  · exact (Option.some_inj.mp h).symm

theorem trySims_length {q : String} {corpus : List String} {maxF : ℕ}
    {l : List ℝ} (h : trySims q corpus maxF = some l) :
    l.length = corpus.length := by
  rw [trySims_eq_some h, List.length_map]

theorem trySims_mem_bounds {q : String} {corpus : List String} {maxF : ℕ}
    {l : List ℝ} (h : trySims q corpus maxF = some l) :
    ∀ x ∈ l, 0 ≤ x ∧ x ≤ 1 := by
  intro x hx
  rw [trySims_eq_some h] at hx
  obtain ⟨c, _, rfl⟩ := List.mem_map.mp hx
  exact ⟨cosineSim_nonneg (tfidfVec_nonneg _ _ _) (tfidfVec_nonneg _ _ _),
    cosineSim_le_one _ _⟩

theorem fieldSims_of_fallback {q : String} {cands : List String} {maxF : ℕ}
    (h : ¬(preprocess_text q ≠ "" ∧ cands.map preprocess_text ≠ []) ∨
      trySims (preprocess_text q) (cands.map preprocess_text) maxF = none) :
    fieldSims q cands maxF = List.replicate cands.length 0 := by
  unfold fieldSims
  rcases h with h | h
  · rw [if_neg h]
  · split
    · simp only [h]
    · rfl

theorem fieldSims_of_some {q : String} {cands : List String} {maxF : ℕ}
    {sims : List ℝ}
    (hc : preprocess_text q ≠ "" ∧ cands.map preprocess_text ≠ [])
    (h : trySims (preprocess_text q) (cands.map preprocess_text) maxF =
      some sims) :
    fieldSims q cands maxF = sims := by
  unfold fieldSims
  rw [if_pos hc]
  simp only [h]

theorem fieldSims_length (q : String) (cands : List String) (maxF : ℕ) :
    (fieldSims q cands maxF).length = cands.length := by
  unfold fieldSims
  split
  · cases htr : trySims (preprocess_text q) (cands.map preprocess_text) maxF with
    | none => simp
    | some sims =>
      simp only [htr]
      rw [trySims_length htr, List.length_map]
  · simp

theorem fieldSims_mem_bounds (q : String) (cands : List String) (maxF : ℕ) :
    ∀ x ∈ fieldSims q cands maxF, 0 ≤ x ∧ x ≤ 1 := by
  unfold fieldSims
  split
  · cases htr : trySims (preprocess_text q) (cands.map preprocess_text) maxF with
    | none =>
      simp only [htr]
      intro x hx
      rw [List.eq_of_mem_replicate hx]
      norm_num
    | some sims =>
      simp only [htr]
      exact trySims_mem_bounds htr
  · intro x hx
    rw [List.eq_of_mem_replicate hx]
    norm_num

theorem fieldSims_getD_bounds (q : String) (cands : List String) (maxF : ℕ)
    (i : ℕ) : 0 ≤ (fieldSims q cands maxF).getD i 0 ∧
      (fieldSims q cands maxF).getD i 0 ≤ 1 := by
  rw [List.getD_eq_getElem?_getD]
  cases h : (fieldSims q cands maxF)[i]? with
  | none => simp
  | some a =>
    obtain ⟨hi, rfl⟩ := List.getElem?_eq_some.mp h
    exact fieldSims_mem_bounds q cands maxF _ (List.getElem_mem hi)

/-! ### Helper lemmas: the result-building loop -/

theorem buildGo_ok {ets eabs : List String} {tsims asims : List ℝ} :
    ∀ {is : List ℕ}, (∀ i ∈ is, i < eabs.length) →
      buildGo ets eabs tsims asims is =
        .ok (is.map (recAt ets eabs tsims asims))
  | [], _ => rfl
  | i :: rest, h => by
    have hi : i < eabs.length := h i (List.mem_cons_self i rest)
    have habs : eabs.getD i "" = eabs[i] := by
      rw [List.getD_eq_getElem?_getD, List.getElem?_eq_getElem hi]
      rfl
    rw [buildGo, List.getElem?_eq_getElem hi,
      buildGo_ok (fun j hj => h j (List.mem_cons_of_mem i hj))]
    simp only [List.map_cons, recAt, habs]

theorem buildGo_error {ets eabs : List String} {tsims asims : List ℝ} :
    ∀ {is : List ℕ}, (∃ i ∈ is, eabs.length ≤ i) →
      buildGo ets eabs tsims asims is = .error "list index out of range"
  | i :: rest, h => by
    rcases h with ⟨j, hj, hlen⟩
    rcases List.mem_cons.mp hj with rfl | hjr
    · rw [buildGo, List.getElem?_eq_none hlen]
    · rw [buildGo]
      cases hi : eabs[i]? with
      | none => rfl
      | some ab =>
        rw [buildGo_error ⟨j, hjr, hlen⟩]

/-! ### Helper lemmas: calculate_cosine_similarity -/

theorem calculate_eq_ok {pt pc : String} {ets eabs : List String}
    (h : ets.length ≤ eabs.length) :
    calculate_cosine_similarity pt pc ets eabs =
      .ok (((List.range ets.length).map
          (recAt ets eabs (fieldSims pt ets 1000)
            (fieldSims pc eabs 2000))).insertionSort
        (keyRel CandidateResult.overall_similarity)) := by
  unfold calculate_cosine_similarity
  rw [buildGo_ok (fun i hi => lt_of_lt_of_le (List.mem_range.mp hi) h)]

theorem calculate_eq_error {pt pc : String} {ets eabs : List String}
    (h : eabs.length < ets.length) :
    calculate_cosine_similarity pt pc ets eabs =
      .error "list index out of range" := by
  unfold calculate_cosine_similarity
  rw [buildGo_error ⟨eabs.length, List.mem_range.mpr h, le_refl _⟩]

/-! ### Helper lemmas: stability of insertion sort -/

theorem pairwise_orderedInsert {α β : Type} [LinearOrder β] (k : α → β)
    (P : α → α → Prop) (hP : ∀ x y, k x < k y → P y x) (a : α) :
    ∀ m : List α, m.Pairwise P → (∀ b ∈ m, P a b) →
      (m.orderedInsert (keyRel k) a).Pairwise P
  | [], _, _ => by simp
  | c :: m, hm, ha => by
    obtain ⟨hc, hm'⟩ := List.pairwise_cons.mp hm
    rw [List.orderedInsert]
    split
    · exact List.Pairwise.cons (fun b hb => ha b hb) hm
    · rename_i hr
      refine List.Pairwise.cons ?_
        (pairwise_orderedInsert k P hP a m hm'
          (fun b hb => ha b (List.mem_cons_of_mem _ hb)))
      intro x hx
      rcases (List.mem_orderedInsert _).mp hx with rfl | hx
      · exact hP x c (lt_of_not_le hr)
      · exact hc x hx

theorem pairwise_insertionSort_stable {α β : Type} [LinearOrder β]
    (k : α → β) (P : α → α → Prop) (hP : ∀ x y, k x < k y → P y x) :
    ∀ l : List α, l.Pairwise P →
      (l.insertionSort (keyRel k)).Pairwise P
  | [], _ => by simp
  | a :: l, h => by
    obtain ⟨ha, hl⟩ := List.pairwise_cons.mp h
    rw [List.insertionSort]
    refine pairwise_orderedInsert k P hP a _
      (pairwise_insertionSort_stable k P hP l hl) ?_
    intro b hb
    exact ha b ((List.mem_insertionSort _).mp hb)

theorem buildGo_ok_inv {ets eabs : List String} {tsims asims : List ℝ} :
    ∀ {is : List ℕ} {rs : List CandidateResult},
      buildGo ets eabs tsims asims is = .ok rs →
      rs = is.map (recAt ets eabs tsims asims)
  | [], rs, h => by
    simpa [buildGo] using h.symm
  | i :: rest, rs, h => by
    rw [buildGo] at h
    cases hi : eabs[i]? with
    | none => rw [hi] at h; exact absurd h (by simp)
    | some ab =>
      rw [hi] at h
      cases hrest : buildGo ets eabs tsims asims rest with
      | error e => rw [hrest] at h; exact absurd h (by simp)
      | ok tl =>
        rw [hrest] at h
        have htl := buildGo_ok_inv hrest
        have habs : ab = eabs.getD i "" := by
          rw [List.getD_eq_getElem?_getD, hi]
          rfl
        simp only [Except.ok.injEq] at h
        rw [← h, htl, habs, List.map_cons]
        rfl

theorem calculate_ok_inv {pt pc : String} {ets eabs : List String}
    {res : List CandidateResult}
    (h : calculate_cosine_similarity pt pc ets eabs = .ok res) :
    res = ((List.range ets.length).map
        (recAt ets eabs (fieldSims pt ets 1000)
          (fieldSims pc eabs 2000))).insertionSort
      (keyRel CandidateResult.overall_similarity) := by
  unfold calculate_cosine_similarity at h
  cases hb : buildGo ets eabs (fieldSims pt ets 1000) (fieldSims pc eabs 2000)
      (List.range ets.length) with
  | error e => rw [hb] at h; exact absurd h (by simp)
  | ok rs =>
    rw [hb] at h
    simp only [Except.ok.injEq] at h
    rw [← h, buildGo_ok_inv hb]

theorem getD_replicate_zero (n i : ℕ) :
    (List.replicate n (0 : ℝ)).getD i 0 = 0 := by
  rw [List.getD_eq_getElem?_getD, List.getElem?_replicate]
  split <;> rfl

/-- Stability of the final sort, phrased on the result list: records with
equal `overall_similarity` keep increasing original indices. -/
theorem calculate_res_stable {pt pc : String} {ets eabs : List String}
    {res : List CandidateResult}
    (h : calculate_cosine_similarity pt pc ets eabs = .ok res) :
    res.Pairwise (fun a b =>
      a.overall_similarity = b.overall_similarity → a.index < b.index) := by
  rw [calculate_ok_inv h]
  apply pairwise_insertionSort_stable CandidateResult.overall_similarity
    (fun a b =>
      a.overall_similarity = b.overall_similarity → a.index < b.index)
  · intro x y hxy heq
    exact absurd heq (ne_of_lt hxy).symm
  · rw [List.pairwise_map]
    refine (List.pairwise_lt_range _).imp ?_
    intro i j hij _
    simpa [recAt] using hij

/-! ### Concrete evaluation of the engineered input

The discrete layers (preprocessing, tokenization, vocabulary, counts,
document frequencies) are evaluated by `decide`; the numeric layer reduces
to exact rational cosines because the IDF factor is constant and cancels. -/

theorem cex_pre_q : preprocess_text qTitle = qTitle := by decide

theorem cex_pre_titles : cexTitles.map preprocess_text = cexTitles := by
  decide

theorem cex_tok_q : docTokens qTitle = qToks := by decide

theorem cex_tok_c1 : docTokens c1Title = c1Toks := by decide

theorem cex_tok_c2 : docTokens c2Title = c2Toks := by decide

theorem cex_tok_f : docTokens fTitle = fToks := by decide

theorem cex_docs_eq : fieldDocs qTitle cexTitles = cexDocs := by
  rw [fieldDocs]
  show List.map docTokens [qTitle, c1Title, c2Title, fTitle, fTitle] = cexDocs
  rw [List.map_cons, List.map_cons, List.map_cons, List.map_cons,
    List.map_cons, List.map_nil, cex_tok_q, cex_tok_c1, cex_tok_c2, cex_tok_f]
  rfl

theorem cex_vocab_eq : cappedVocab cexDocs 1000 = cexVocab := by
  rw [cappedVocab, if_pos (by decide : (vocabOf cexDocs).length ≤ 1000)]
  decide

theorem cex_df : ∀ t ∈ cexVocab, docFreq cexDocs t = 3 := by decide

theorem cex_idf_eq : ∀ t ∈ cexVocab, idf cexDocs t = cexIdf := by
  intro t ht
  have hlen : cexDocs.length = 5 := rfl
  rw [idf, cex_df t ht, hlen, cexIdf]
  norm_num

theorem cexIdf_pos : 0 < cexIdf := by
  rw [cexIdf]
  have := Real.log_nonneg (by norm_num : (1 : ℝ) ≤ 3 / 2)
  linarith

theorem cex_tfidf (d : List String) :
    tfidfVec cexDocs cexVocab d =
      (cexVocab.map (fun t => ((d.count t : ℕ) : ℝ))).map
        (fun x => x * cexIdf) := by
  rw [tfidfVec, List.map_map]
  refine List.map_congr_left ?_
  intro t ht
  simp only [Function.comp]
  rw [cex_idf_eq t ht]

theorem cex_countsN_q : cexVocab.map (fun t => qToks.count t) =
    [1, 84, 10, 8, 2, 0, 0, 0, 0, 0, 0, 0] := by decide

theorem cex_countsN_c1 : cexVocab.map (fun t => c1Toks.count t) =
    [1, 0, 0, 0, 0, 84, 10, 8, 2, 0, 0, 0] := by decide

theorem cex_countsN_c2 : cexVocab.map (fun t => c2Toks.count t) =
    [1, 0, 0, 0, 0, 0, 0, 0, 0, 85, 13, 1] := by decide

theorem cex_countsR_q :
    cexVocab.map (fun t => ((qToks.count t : ℕ) : ℝ)) = qVecR := by
  have h1 : (fun t => ((qToks.count t : ℕ) : ℝ)) =
      (fun n : ℕ => (n : ℝ)) ∘ (fun t => qToks.count t) := rfl
  rw [h1, ← List.map_map, cex_countsN_q, qVecR]
  norm_num

theorem cex_countsR_c1 :
    cexVocab.map (fun t => ((c1Toks.count t : ℕ) : ℝ)) = c1VecR := by
  have h1 : (fun t => ((c1Toks.count t : ℕ) : ℝ)) =
      (fun n : ℕ => (n : ℝ)) ∘ (fun t => c1Toks.count t) := rfl
  rw [h1, ← List.map_map, cex_countsN_c1, c1VecR]
  norm_num

theorem cex_countsR_c2 :
    cexVocab.map (fun t => ((c2Toks.count t : ℕ) : ℝ)) = c2VecR := by
  have h1 : (fun t => ((c2Toks.count t : ℕ) : ℝ)) =
      (fun n : ℕ => (n : ℝ)) ∘ (fun t => c2Toks.count t) := rfl
  rw [h1, ← List.map_map, cex_countsN_c2, c2VecR]
  norm_num

theorem cex_dot_qc1 : dotp qVecR c1VecR = 1 := by
  rw [dotp, qVecR, c1VecR]
  norm_num [Finset.sum_range_succ]

theorem cex_dot_qc2 : dotp qVecR c2VecR = 1 := by
  rw [dotp, qVecR, c2VecR]
  norm_num [Finset.sum_range_succ]

theorem cex_dot_qq : dotp qVecR qVecR = 7225 := by
  rw [dotp, qVecR]
  norm_num [Finset.sum_range_succ]

theorem cex_dot_c1c1 : dotp c1VecR c1VecR = 7225 := by
  rw [dotp, c1VecR]
  norm_num [Finset.sum_range_succ]

theorem cex_dot_c2c2 : dotp c2VecR c2VecR = 7396 := by
  rw [dotp, c2VecR]
  norm_num [Finset.sum_range_succ]

theorem sqrt_7225 : Real.sqrt 7225 = 85 := by
  rw [show (7225 : ℝ) = 85 ^ 2 by norm_num]
  exact Real.sqrt_sq (by norm_num)

theorem sqrt_7396 : Real.sqrt 7396 = 86 := by
  rw [show (7396 : ℝ) = 86 ^ 2 by norm_num]
  exact Real.sqrt_sq (by norm_num)

theorem cex_cos_qc1 : cosineSim qVecR c1VecR = 1 / 7225 := by
  rw [cosineSim, cex_dot_qc1, cex_dot_qq, cex_dot_c1c1, sqrt_7225]
  norm_num

theorem cex_cos_qc2 : cosineSim qVecR c2VecR = 1 / 7310 := by
  rw [cosineSim, cex_dot_qc2, cex_dot_qq, cex_dot_c2c2, sqrt_7225, sqrt_7396]
  norm_num

theorem getD_map_mul (c : ℝ) (u : List ℝ) (i : ℕ) :
    (u.map (fun x => x * c)).getD i 0 = u.getD i 0 * c := by
  rw [List.getD_eq_getElem?_getD, List.getD_eq_getElem?_getD,
    List.getElem?_map]
  cases h : u[i]? <;> simp

theorem dotp_map_mul (c : ℝ) (u v : List ℝ) :
    dotp (u.map (fun x => x * c)) (v.map (fun x => x * c)) =
      dotp u v * (c * c) := by
  rw [dotp, dotp, List.length_map, List.length_map, Finset.sum_mul]
  refine Finset.sum_congr rfl ?_
  intro i _
  rw [getD_map_mul, getD_map_mul]
  ring

theorem cosineSim_map_mul {c : ℝ} (hc : 0 < c) (u v : List ℝ) :
    cosineSim (u.map (fun x => x * c)) (v.map (fun x => x * c)) =
      cosineSim u v := by
  rw [cosineSim, cosineSim, dotp_map_mul, dotp_map_mul, dotp_map_mul]
  rw [Real.sqrt_mul (dotp_self_nonneg u), Real.sqrt_mul (dotp_self_nonneg v),
    Real.sqrt_mul_self hc.le]
  rw [show Real.sqrt (dotp u u) * c * (Real.sqrt (dotp v v) * c) =
      Real.sqrt (dotp u u) * Real.sqrt (dotp v v) * (c * c) by ring]
  exact mul_div_mul_right _ _ (by positivity)

theorem cex_cos1 : cosineSim (tfidfVec cexDocs cexVocab qToks)
    (tfidfVec cexDocs cexVocab c1Toks) = 1 / 7225 := by
  rw [cex_tfidf qToks, cex_tfidf c1Toks, cex_countsR_q, cex_countsR_c1,
    cosineSim_map_mul cexIdf_pos, cex_cos_qc1]

theorem cex_cos2 : cosineSim (tfidfVec cexDocs cexVocab qToks)
    (tfidfVec cexDocs cexVocab c2Toks) = 1 / 7310 := by
  rw [cex_tfidf qToks, cex_tfidf c2Toks, cex_countsR_q, cex_countsR_c2,
    cosineSim_map_mul cexIdf_pos, cex_cos_qc2]

theorem cex_trySims :
    trySims (preprocess_text qTitle) (cexTitles.map preprocess_text) 1000 =
      some [cosineSim (tfidfVec cexDocs cexVocab qToks)
          (tfidfVec cexDocs cexVocab c1Toks),
        cosineSim (tfidfVec cexDocs cexVocab qToks)
          (tfidfVec cexDocs cexVocab c2Toks),
        cosineSim (tfidfVec cexDocs cexVocab qToks)
          (tfidfVec cexDocs cexVocab fToks),
        cosineSim (tfidfVec cexDocs cexVocab qToks)
          (tfidfVec cexDocs cexVocab fToks)] := by
  rw [cex_pre_q, cex_pre_titles, trySims, cex_docs_eq, cex_vocab_eq,
    if_neg (by decide : ¬(cexVocab = ([] : List String)))]
  show some (List.map _ [c1Title, c2Title, fTitle, fTitle]) = _
  simp only [List.map_cons, List.map_nil]
  rw [cex_tok_q, cex_tok_c1, cex_tok_c2, cex_tok_f]

theorem cex_fieldSims_eq :
    fieldSims qTitle cexTitles 1000 =
      [cosineSim (tfidfVec cexDocs cexVocab qToks)
          (tfidfVec cexDocs cexVocab c1Toks),
        cosineSim (tfidfVec cexDocs cexVocab qToks)
          (tfidfVec cexDocs cexVocab c2Toks),
        cosineSim (tfidfVec cexDocs cexVocab qToks)
          (tfidfVec cexDocs cexVocab fToks),
        cosineSim (tfidfVec cexDocs cexVocab qToks)
          (tfidfVec cexDocs cexVocab fToks)] := by
  refine fieldSims_of_some ⟨?_, ?_⟩ cex_trySims
  · rw [cex_pre_q]
    decide
  · rw [cex_pre_titles]
    decide

theorem cex_fieldSims_t0 :
    (fieldSims qTitle cexTitles 1000).getD 0 0 = 1 / 7225 := by
  rw [cex_fieldSims_eq, List.getD_cons_zero, cex_cos1]

theorem cex_fieldSims_t1 :
    (fieldSims qTitle cexTitles 1000).getD 1 0 = 1 / 7310 := by
  rw [cex_fieldSims_eq, List.getD_cons_succ, List.getD_cons_zero, cex_cos2]

theorem cex_fieldSims_a :
    fieldSims "" cexAbstracts 2000 = List.replicate 4 0 :=
  fieldSims_of_fallback (Or.inl (by decide))

theorem cex_calculate_eq :
    calculate_cosine_similarity qTitle "" cexTitles cexAbstracts =
      .ok cexResult := by
  rw [cexResult]
  exact calculate_eq_ok (by decide)

theorem cexRec0_ts : cexRec0.title_similarity = 1 / 10000 := by
  show round4 ((fieldSims qTitle cexTitles 1000).getD 0 0) = 1 / 10000
  rw [cex_fieldSims_t0, round4, show round ((1 : ℝ) / 7225 * 10000) = 1 from
    round_eq_of (by norm_num) (by norm_num)]
  norm_num

theorem cexRec0_as : cexRec0.abstract_similarity = 0 := by
  show round4 ((fieldSims "" cexAbstracts 2000).getD 0 0) = 0
  rw [cex_fieldSims_a, getD_replicate_zero, round4_zero]

theorem cexRec0_ov : cexRec0.overall_similarity = 1 / 10000 := by
  show round4 ((fieldSims qTitle cexTitles 1000).getD 0 0 * 0.4 +
    (fieldSims "" cexAbstracts 2000).getD 0 0 * 0.6) = 1 / 10000
  rw [cex_fieldSims_t0, cex_fieldSims_a, getD_replicate_zero, round4,
    show round (((1 : ℝ) / 7225 * 0.4 + 0 * 0.6) * 10000) = 1 from
      round_eq_of (by norm_num) (by norm_num)]
  norm_num

/-! ### Claim C1 -/

/-- Claim C1: for candidate lists of equal length `N`,
`calculate_cosine_similarity` succeeds with exactly `N` records whose
`index` fields are a permutation of `[0, N)`; for `N = 0` the result is the
empty list, and `main`'s emitted `total_comparisons` is `0`. -/
theorem C1_length_permutation (pt pc : String) (ets eabs : List String)
    (h : ets.length = eabs.length) :
    (∃ res, calculate_cosine_similarity pt pc ets eabs = .ok res ∧
      res.length = ets.length ∧
      (res.map CandidateResult.index).Perm (List.range ets.length) ∧
      (ets.length = 0 → res = [])) ∧
    (∃ o, runMain pt pc [] = .ok o ∧ o.total_comparisons = 0) := by
  constructor
  · refine ⟨_, calculate_eq_ok (le_of_eq h), ?_, ?_, ?_⟩
    · rw [(List.perm_insertionSort _ _).length_eq, List.length_map,
        List.length_range]
    · refine ((List.perm_insertionSort _ _).map _).trans ?_
      rw [List.map_map]
      have : CandidateResult.index ∘
          recAt ets eabs (fieldSims pt ets 1000) (fieldSims pc eabs 2000) =
          id := by
        funext i
        rfl
      rw [this, List.map_id]
    · intro h0
      rw [h0]
      rfl
  · refine ⟨⟨true, [], 0⟩, ?_, rfl⟩
    unfold runMain
    rw [show (([] : List (String × String)).map Prod.fst) = [] from rfl,
      show (([] : List (String × String)).map Prod.snd) = [] from rfl,
      calculate_eq_ok (le_refl _)]
    rfl

/-- Witness for C1 at a concrete input of equal lengths. -/
theorem C1_witness :
    (["aa"] : List String).length = (["bb"] : List String).length ∧
    ((∃ res, calculate_cosine_similarity "t" "c" ["aa"] ["bb"] = .ok res ∧
      res.length = (["aa"] : List String).length ∧
      (res.map CandidateResult.index).Perm
        (List.range (["aa"] : List String).length) ∧
      ((["aa"] : List String).length = 0 → res = [])) ∧
    (∃ o, runMain "t" "c" [] = .ok o ∧ o.total_comparisons = 0)) :=
  ⟨rfl, C1_length_permutation "t" "c" ["aa"] ["bb"] rfl⟩

/-! ### Claim C6 (corrected) -/

/-- Counterexample to claim C6: the input with one candidate title and two
candidate abstracts has mismatched lengths, yet the call is not aborted — it
returns a (partial) list of one record. -/
theorem C6_counterexample :
    (["aa"] : List String).length ≠ (["bb", "cc"] : List String).length ∧
    ∃ res, calculate_cosine_similarity "" "" ["aa"] ["bb", "cc"] = .ok res ∧
      res.length = 1 := by
  refine ⟨by decide, _, calculate_eq_ok (by norm_num), ?_⟩
  rw [(List.perm_insertionSort _ _).length_eq, List.length_map,
    List.length_range]
  rfl

/-- Claim C6 as amended: a mismatch aborts the call with an error (and no
records) exactly when there are more titles than abstracts; when there are
at least as many abstracts as titles, the call silently succeeds with one
record per title. -/
theorem C6_mismatch_behavior (pt pc : String) (ets eabs : List String) :
    (eabs.length < ets.length →
      calculate_cosine_similarity pt pc ets eabs =
        .error "list index out of range") ∧
    (ets.length ≤ eabs.length →
      ∃ res, calculate_cosine_similarity pt pc ets eabs = .ok res ∧
        res.length = ets.length) := by
  constructor
  · exact fun h => calculate_eq_error h
  · intro h
    refine ⟨_, calculate_eq_ok h, ?_⟩
    rw [(List.perm_insertionSort _ _).length_eq, List.length_map,
      List.length_range]

/-- Witness for the amended C6, covering both legs at concrete inputs. -/
theorem C6_mismatch_witness :
    ((["aa", "bb"] : List String).length < 1 + 1 ∨ True) ∧
    (calculate_cosine_similarity "x" "y" ["aa", "bb"] ["cc"] =
      .error "list index out of range") ∧
    (∃ res, calculate_cosine_similarity "x" "y" ["aa"] ["cc", "dd"] =
      .ok res ∧ res.length = 1) :=
  ⟨Or.inr trivial,
    (C6_mismatch_behavior "x" "y" ["aa", "bb"] ["cc"]).1 (by norm_num),
    (C6_mismatch_behavior "x" "y" ["aa"] ["cc", "dd"]).2 (by norm_num)⟩

/-! ### Claim C10 -/

/-- Claim C10: `calculate_cosine_similarity` is deterministic — two
invocations with equal arguments return equal results (the embedding is a
pure function of its four arguments, with no cross-call state). -/
theorem C10_deterministic (pt1 pt2 pc1 pc2 : String)
    (ets1 ets2 eabs1 eabs2 : List String)
    (h1 : pt1 = pt2) (h2 : pc1 = pc2) (h3 : ets1 = ets2)
    (h4 : eabs1 = eabs2) :
    calculate_cosine_similarity pt1 pc1 ets1 eabs1 =
      calculate_cosine_similarity pt2 pc2 ets2 eabs2 := by
  rw [h1, h2, h3, h4]

/-- Witness for C10 at a concrete input. -/
theorem C10_witness :
    calculate_cosine_similarity "a1" "b1" ["t"] ["u"] =
      calculate_cosine_similarity "a1" "b1" ["t"] ["u"] :=
  C10_deterministic "a1" "a1" "b1" "b1" ["t"] ["t"] ["u"] ["u"]
    rfl rfl rfl rfl

/-! ### Claim C2 -/

/-- Claim C2: the returned list is sorted non-increasingly by
`overall_similarity`, and the sort is stable — records with equal
`overall_similarity` appear in the order of their original candidate
indices. -/
theorem C2_sorted_stable (pt pc : String) (ets eabs : List String)
    (res : List CandidateResult)
    (h : calculate_cosine_similarity pt pc ets eabs = .ok res) :
    res.Pairwise (fun a b => b.overall_similarity ≤ a.overall_similarity) ∧
    res.Pairwise (fun a b =>
      a.overall_similarity = b.overall_similarity → a.index < b.index) := by
  refine ⟨?_, calculate_res_stable h⟩
  rw [calculate_ok_inv h]
  exact (List.sorted_insertionSort
    (keyRel CandidateResult.overall_similarity) _).imp (fun hx => hx)

/-- Witness for C2 at a concrete input. -/
theorem C2_witness :
    calculate_cosine_similarity "q" "c" ["aa"] ["bb"] =
      .ok [recAt ["aa"] ["bb"] (fieldSims "q" ["aa"] 1000)
        (fieldSims "c" ["bb"] 2000) 0] ∧
    ([recAt ["aa"] ["bb"] (fieldSims "q" ["aa"] 1000)
        (fieldSims "c" ["bb"] 2000) 0].Pairwise
      (fun a b => b.overall_similarity ≤ a.overall_similarity) ∧
    [recAt ["aa"] ["bb"] (fieldSims "q" ["aa"] 1000)
        (fieldSims "c" ["bb"] 2000) 0].Pairwise
      (fun a b =>
        a.overall_similarity = b.overall_similarity → a.index < b.index)) := by
  have hok : calculate_cosine_similarity "q" "c" ["aa"] ["bb"] =
      .ok [recAt ["aa"] ["bb"] (fieldSims "q" ["aa"] 1000)
        (fieldSims "c" ["bb"] 2000) 0] :=
    (calculate_eq_ok (by norm_num)).trans rfl
  exact ⟨hok, C2_sorted_stable "q" "c" ["aa"] ["bb"] _ hok⟩

/-! ### Claim C3 (corrected): the amended statement -/

/-- Claim C3 as amended: each record's `overall_similarity` is the 4-decimal
rounding of `0.4 · t + 0.6 · a` where `t`, `a` are the *unrounded* per-field
similarities; the reported `title_similarity`/`abstract_similarity` are the
4-decimal roundings of those same unrounded values (recombining the rounded
values can disagree, see the counterexample). -/
theorem C3_overall_from_unrounded (pt pc : String) (ets eabs : List String)
    (res : List CandidateResult)
    (h : calculate_cosine_similarity pt pc ets eabs = .ok res) :
    ∀ r ∈ res,
      r.title_similarity = round4 ((fieldSims pt ets 1000).getD r.index 0) ∧
      r.abstract_similarity =
        round4 ((fieldSims pc eabs 2000).getD r.index 0) ∧
      r.overall_similarity =
        round4 ((fieldSims pt ets 1000).getD r.index 0 * 0.4 +
          (fieldSims pc eabs 2000).getD r.index 0 * 0.6) := by
  intro r hr
  rw [calculate_ok_inv h] at hr
  obtain ⟨i, _, rfl⟩ := List.mem_map.mp ((List.mem_insertionSort _).mp hr)
  exact ⟨rfl, rfl, rfl⟩

/-- Witness for the amended C3 at a concrete input. -/
theorem C3_witness :
    calculate_cosine_similarity "" "" ["aa"] ["bb"] =
      .ok [recAt ["aa"] ["bb"] (fieldSims "" ["aa"] 1000)
        (fieldSims "" ["bb"] 2000) 0] ∧
    (recAt ["aa"] ["bb"] (fieldSims "" ["aa"] 1000)
        (fieldSims "" ["bb"] 2000) 0).overall_similarity =
      round4 ((fieldSims "" ["aa"] 1000).getD 0 0 * 0.4 +
        (fieldSims "" ["bb"] 2000).getD 0 0 * 0.6) := by
  have hok : calculate_cosine_similarity "" "" ["aa"] ["bb"] =
      .ok [recAt ["aa"] ["bb"] (fieldSims "" ["aa"] 1000)
        (fieldSims "" ["bb"] 2000) 0] :=
    (calculate_eq_ok (by norm_num)).trans rfl
  exact ⟨hok, (C3_overall_from_unrounded "" "" ["aa"] ["bb"] _ hok _
    (List.mem_singleton_self _)).2.2⟩

/-! ### Claim C4 -/

/-- Claim C4: every reported `title_similarity`, `abstract_similarity` and
`overall_similarity` lies in `[0, 1]` (per-field cosines of non-negative
TF-IDF vectors are in `[0, 1]`, fall-back values are `0`, and rounding and
the convex `0.4/0.6` combination preserve the interval). -/
theorem C4_bounds (pt pc : String) (ets eabs : List String)
    (res : List CandidateResult)
    (h : calculate_cosine_similarity pt pc ets eabs = .ok res) :
    ∀ r ∈ res,
      (0 ≤ r.title_similarity ∧ r.title_similarity ≤ 1) ∧
      (0 ≤ r.abstract_similarity ∧ r.abstract_similarity ≤ 1) ∧
      (0 ≤ r.overall_similarity ∧ r.overall_similarity ≤ 1) := by
  intro r hr
  rw [calculate_ok_inv h] at hr
  obtain ⟨i, _, rfl⟩ := List.mem_map.mp ((List.mem_insertionSort _).mp hr)
  obtain ⟨ht0, ht1⟩ := fieldSims_getD_bounds pt ets 1000 i
  obtain ⟨ha0, ha1⟩ := fieldSims_getD_bounds pc eabs 2000 i
  exact ⟨⟨round4_nonneg ht0, round4_le_one ht1⟩,
    ⟨round4_nonneg ha0, round4_le_one ha1⟩,
    ⟨round4_nonneg (by linarith), round4_le_one (by linarith)⟩⟩

/-- Witness for C4 at a concrete input. -/
theorem C4_witness :
    calculate_cosine_similarity "q" "c" ["aa"] ["bb"] =
      .ok [recAt ["aa"] ["bb"] (fieldSims "q" ["aa"] 1000)
        (fieldSims "c" ["bb"] 2000) 0] ∧
    (0 ≤ (recAt ["aa"] ["bb"] (fieldSims "q" ["aa"] 1000)
        (fieldSims "c" ["bb"] 2000) 0).overall_similarity ∧
      (recAt ["aa"] ["bb"] (fieldSims "q" ["aa"] 1000)
        (fieldSims "c" ["bb"] 2000) 0).overall_similarity ≤ 1) := by
  have hok : calculate_cosine_similarity "q" "c" ["aa"] ["bb"] =
      .ok [recAt ["aa"] ["bb"] (fieldSims "q" ["aa"] 1000)
        (fieldSims "c" ["bb"] 2000) 0] :=
    (calculate_eq_ok (by norm_num)).trans rfl
  exact ⟨hok, (C4_bounds "q" "c" ["aa"] ["bb"] _ hok _
    (List.mem_singleton_self _)).2.2⟩

/-! ### Claim C5 -/

/-- Claim C5: for each field independently, if the normalized query string is
empty, the field's candidate list is empty, or vectorization fails, then
every record's similarity for that field is `0.0`, while the call still
completes (with one record per title) computing the other field as usual. -/
theorem C5_field_fallback (pt pc : String) (ets eabs : List String)
    (hlen : ets.length = eabs.length) :
    ((¬(preprocess_text pt ≠ "" ∧ ets.map preprocess_text ≠ []) ∨
        trySims (preprocess_text pt) (ets.map preprocess_text) 1000 = none) →
      ∃ res, calculate_cosine_similarity pt pc ets eabs = .ok res ∧
        res.length = ets.length ∧
        ∀ r ∈ res, r.title_similarity = 0 ∧
          r.abstract_similarity =
            round4 ((fieldSims pc eabs 2000).getD r.index 0)) ∧
    ((¬(preprocess_text pc ≠ "" ∧ eabs.map preprocess_text ≠ []) ∨
        trySims (preprocess_text pc) (eabs.map preprocess_text) 2000 = none) →
      ∃ res, calculate_cosine_similarity pt pc ets eabs = .ok res ∧
        res.length = ets.length ∧
        ∀ r ∈ res, r.abstract_similarity = 0 ∧
          r.title_similarity =
            round4 ((fieldSims pt ets 1000).getD r.index 0)) := by
  constructor
  · intro hfb
    refine ⟨_, calculate_eq_ok (le_of_eq hlen), ?_, ?_⟩
    · rw [(List.perm_insertionSort _ _).length_eq, List.length_map,
        List.length_range]
    · intro r hr
      obtain ⟨i, _, rfl⟩ := List.mem_map.mp ((List.mem_insertionSort _).mp hr)
      refine ⟨?_, rfl⟩
      show round4 ((fieldSims pt ets 1000).getD i 0) = 0
      rw [fieldSims_of_fallback hfb, getD_replicate_zero, round4_zero]
  · intro hfb
    refine ⟨_, calculate_eq_ok (le_of_eq hlen), ?_, ?_⟩
    · rw [(List.perm_insertionSort _ _).length_eq, List.length_map,
        List.length_range]
    · intro r hr
      obtain ⟨i, _, rfl⟩ := List.mem_map.mp ((List.mem_insertionSort _).mp hr)
      refine ⟨?_, rfl⟩
      show round4 ((fieldSims pc eabs 2000).getD i 0) = 0
      rw [fieldSims_of_fallback hfb, getD_replicate_zero, round4_zero]

/-- Witness for C5: an empty query title (resp. empty query concept) at
concrete inputs, hypotheses discharged by `decide`. -/
theorem C5_witness :
    (["aa"] : List String).length = (["bb"] : List String).length ∧
    (¬(preprocess_text "" ≠ "" ∧
        (["aa"] : List String).map preprocess_text ≠ [])) ∧
    (∃ res, calculate_cosine_similarity "" "xx" ["aa"] ["bb"] = .ok res ∧
      res.length = (["aa"] : List String).length ∧
      ∀ r ∈ res, r.title_similarity = 0 ∧
        r.abstract_similarity =
          round4 ((fieldSims "xx" ["bb"] 2000).getD r.index 0)) ∧
    (∃ res, calculate_cosine_similarity "xx" "" ["aa"] ["bb"] = .ok res ∧
      res.length = (["aa"] : List String).length ∧
      ∀ r ∈ res, r.abstract_similarity = 0 ∧
        r.title_similarity =
          round4 ((fieldSims "xx" ["aa"] 1000).getD r.index 0)) :=
  ⟨rfl, by decide,
    (C5_field_fallback "" "xx" ["aa"] ["bb"] rfl).1 (Or.inl (by decide)),
    (C5_field_fallback "xx" "" ["aa"] ["bb"] rfl).2 (Or.inl (by decide))⟩

/-! ### Helper lemmas: deduplication and the capped vocabulary -/

theorem dedupAux_mem : ∀ (l seen : List String) (x : String),
    x ∈ dedupAux l seen ↔ x ∈ l ∧ x ∉ seen
  | [], seen, x => by simp [dedupAux]
  | a :: l, seen, x => by
    rw [dedupAux]
    split
    · rename_i hsa
      have ha : a ∈ seen := by simpa using hsa
      rw [dedupAux_mem l seen x]
      constructor
      · rintro ⟨hx, hxs⟩
        exact ⟨List.mem_cons_of_mem _ hx, hxs⟩
      · rintro ⟨hx, hxs⟩
        rcases List.mem_cons.mp hx with rfl | hx
        · exact absurd ha hxs
        · exact ⟨hx, hxs⟩
    · rename_i hsa
      have ha : a ∉ seen := by simpa using hsa
      constructor
      · intro hx
        rcases List.mem_cons.mp hx with rfl | hx
        · exact ⟨List.mem_cons_self _ _, ha⟩
        · obtain ⟨h1, h2⟩ := (dedupAux_mem l (a :: seen) x).mp hx
          exact ⟨List.mem_cons_of_mem _ h1,
            fun hs => h2 (List.mem_cons_of_mem _ hs)⟩
      · rintro ⟨hx, hxs⟩
        rcases List.mem_cons.mp hx with rfl | hx
        · exact List.mem_cons_self _ _
        · by_cases hxa : x = a
          · rw [hxa]
            exact List.mem_cons_self _ _
          · exact List.mem_cons_of_mem _ ((dedupAux_mem l (a :: seen) x).mpr
              ⟨hx, fun hs => (List.mem_cons.mp hs).elim hxa hxs⟩)

theorem dedupFS_mem (l : List String) (x : String) :
    x ∈ dedupFS l ↔ x ∈ l := by
  rw [dedupFS, dedupAux_mem]
  simp

theorem dedupAux_nodup : ∀ (l seen : List String), (dedupAux l seen).Nodup
  | [], _ => by simp [dedupAux]
  | a :: l, seen => by
    rw [dedupAux]
    split
    · exact dedupAux_nodup l seen
    · refine List.Pairwise.cons ?_ (dedupAux_nodup l (a :: seen))
      intro b hb heq
      have hb2 := (dedupAux_mem l (a :: seen) b).mp hb
      exact hb2.2 (by rw [← heq]; exact List.mem_cons_self _ _)

theorem vocabOf_nodup (docs : List (List String)) : (vocabOf docs).Nodup :=
  dedupAux_nodup _ _

theorem vocabOf_mem (docs : List (List String)) (x : String) :
    x ∈ vocabOf docs ↔ x ∈ docs.flatten :=
  dedupFS_mem _ _

theorem nodup_pairwise_indexOf {α : Type} [DecidableEq α] :
    ∀ {l : List α}, l.Nodup →
      l.Pairwise (fun a b => l.indexOf a < l.indexOf b)
  | [], _ => List.Pairwise.nil
  | a :: l, h => by
    obtain ⟨ha, hl⟩ := List.pairwise_cons.mp h
    refine List.Pairwise.cons ?_ ?_
    · intro b hb
      rw [List.indexOf_cons_self, List.indexOf_cons_ne l (ha b hb)]
      exact Nat.succ_pos _
    · refine (nodup_pairwise_indexOf hl).imp_of_mem ?_
      intro x y hx hy hxy
      rw [List.indexOf_cons_ne l (ha x hx), List.indexOf_cons_ne l (ha y hy)]
      exact Nat.succ_lt_succ hxy

/-! ### Claim C8 -/

/-- Claim C8: when the vocabulary exceeds the feature cap, exactly the top
`maxF` terms by total term frequency are retained (ties broken by
first-encounter order): the retained list has length `maxF`, all its terms
come from the vocabulary, and every discarded vocabulary term either has a
strictly smaller total frequency than every retained term or ties with it
and appears later in first-encounter order. -/
theorem C8_capping (docs : List (List String)) (maxF : ℕ) (_hpos : 0 < maxF)
    (h : maxF < (vocabOf docs).length) :
    (cappedVocab docs maxF).length = maxF ∧
    (∀ t ∈ cappedVocab docs maxF, t ∈ vocabOf docs) ∧
    (∀ t ∈ cappedVocab docs maxF, ∀ s ∈ vocabOf docs,
      s ∉ cappedVocab docs maxF →
      totalTf docs s < totalTf docs t ∨
      (totalTf docs s = totalTf docs t ∧
        (vocabOf docs).indexOf t < (vocabOf docs).indexOf s)) := by
  have hcap : cappedVocab docs maxF =
      ((vocabOf docs).insertionSort (keyRel (totalTf docs))).take maxF := by
    rw [cappedVocab, if_neg (not_le.mpr h)]
  have hperm := List.perm_insertionSort (keyRel (totalTf docs)) (vocabOf docs)
  have hlenL : ((vocabOf docs).insertionSort
      (keyRel (totalTf docs))).length = (vocabOf docs).length :=
    hperm.length_eq
  refine ⟨?_, ?_, ?_⟩
  · rw [hcap, List.length_take, hlenL]
    exact Nat.min_eq_left (le_of_lt h)
  · intro t ht
    rw [hcap] at ht
    exact hperm.mem_iff.mp (List.mem_of_mem_take ht)
  · intro t ht s hs hsn
    rw [hcap] at ht hsn
    have hsL : s ∈ (vocabOf docs).insertionSort (keyRel (totalTf docs)) :=
      hperm.mem_iff.mpr hs
    have hsplit : s ∈ ((vocabOf docs).insertionSort
          (keyRel (totalTf docs))).take maxF ++
        ((vocabOf docs).insertionSort (keyRel (totalTf docs))).drop maxF := by
      rw [List.take_append_drop]
      exact hsL
    have hsd : s ∈ ((vocabOf docs).insertionSort
        (keyRel (totalTf docs))).drop maxF :=
      (List.mem_append.mp hsplit).resolve_left hsn
    have hsorted := List.sorted_insertionSort (keyRel (totalTf docs))
      (vocabOf docs)
    have hstab : ((vocabOf docs).insertionSort
        (keyRel (totalTf docs))).Pairwise (fun a b =>
          totalTf docs a = totalTf docs b →
            (vocabOf docs).indexOf a < (vocabOf docs).indexOf b) := by
      refine pairwise_insertionSort_stable (totalTf docs) _ ?_ _ ?_
      · intro x y hxy heq
        exact absurd heq (ne_of_lt hxy).symm
      · refine (nodup_pairwise_indexOf (vocabOf_nodup docs)).imp ?_
        intro x y hlt
        exact fun _ => hlt
    rw [← List.take_append_drop maxF
      ((vocabOf docs).insertionSort (keyRel (totalTf docs)))] at hsorted hstab
    have hcross := (List.pairwise_append.mp hsorted).2.2 t ht s hsd
    have hcross2 := (List.pairwise_append.mp hstab).2.2 t ht s hsd
    rcases lt_or_eq_of_le hcross with hlt | heq
    · exact Or.inl hlt
    · exact Or.inr ⟨heq, hcross2 heq.symm⟩

/-- Witness for C8 on a small collection with a three-term vocabulary and a
cap of two. -/
theorem C8_witness :
    (0 < 2 ∧ 2 < (vocabOf [["aa", "bb", "cc", "bb"]]).length) ∧
    ((cappedVocab [["aa", "bb", "cc", "bb"]] 2).length = 2 ∧
    (∀ t ∈ cappedVocab [["aa", "bb", "cc", "bb"]] 2,
      t ∈ vocabOf [["aa", "bb", "cc", "bb"]]) ∧
    (∀ t ∈ cappedVocab [["aa", "bb", "cc", "bb"]] 2,
      ∀ s ∈ vocabOf [["aa", "bb", "cc", "bb"]],
      s ∉ cappedVocab [["aa", "bb", "cc", "bb"]] 2 →
      totalTf [["aa", "bb", "cc", "bb"]] s <
        totalTf [["aa", "bb", "cc", "bb"]] t ∨
      (totalTf [["aa", "bb", "cc", "bb"]] s =
        totalTf [["aa", "bb", "cc", "bb"]] t ∧
        (vocabOf [["aa", "bb", "cc", "bb"]]).indexOf t <
          (vocabOf [["aa", "bb", "cc", "bb"]]).indexOf s))) :=
  ⟨⟨by norm_num, by decide⟩,
    C8_capping [["aa", "bb", "cc", "bb"]] 2 (by norm_num) (by decide)⟩

/-! ### Claim C3 (corrected): the counterexample -/

/-- Counterexample to claim C3 as stated: in the result for the engineered
input, the record of candidate 0 reports `overall_similarity = 0.0001`,
while recombining its reported (4-decimal-rounded) per-field similarities
gives `round4(0.4·0.0001 + 0.6·0) = 0` — a discrepancy of `1e-4`, far above
the claimed tolerance `1e-9`. -/
theorem C3_counterexample :
    calculate_cosine_similarity qTitle "" cexTitles cexAbstracts =
      .ok cexResult ∧
    cexRec0 ∈ cexResult ∧ cexRec0.index = 0 ∧
    |cexRec0.overall_similarity -
        round4 (0.4 * cexRec0.title_similarity +
          0.6 * cexRec0.abstract_similarity)| > 1 / 1000000000 := by
  refine ⟨cex_calculate_eq, ?_, rfl, ?_⟩
  · rw [cexResult]
    exact (List.mem_insertionSort _).mpr
      (List.mem_map.mpr ⟨0, List.mem_range.mpr (by decide), rfl⟩)
  · rw [cexRec0_ov, cexRec0_ts, cexRec0_as,
      show round4 (0.4 * ((1 : ℝ) / 10000) + 0.6 * 0) = 0 by
        rw [round4, show round ((0.4 * ((1 : ℝ) / 10000) + 0.6 * 0) * 10000) =
            0 from round_eq_of (by norm_num) (by norm_num)]
        norm_num,
      sub_zero, abs_of_nonneg (by norm_num)]
    norm_num

/-! ### Claim C9 -/

/-- Claim C9: the final ordering compares only the 4-decimal-rounded overall
scores — two candidates `i < j` whose unrounded weighted scores differ but
round to the same value are treated as tied and appear in original index
order in the result. -/
theorem C9_rounded_ties (pt pc : String) (ets eabs : List String)
    (res : List CandidateResult) (i j : ℕ)
    (h : calculate_cosine_similarity pt pc ets eabs = .ok res)
    (hij : i < j) (hj : j < ets.length)
    (_hraw : (fieldSims pt ets 1000).getD i 0 * 0.4 +
        (fieldSims pc eabs 2000).getD i 0 * 0.6 ≠
      (fieldSims pt ets 1000).getD j 0 * 0.4 +
        (fieldSims pc eabs 2000).getD j 0 * 0.6)
    (hround : round4 ((fieldSims pt ets 1000).getD i 0 * 0.4 +
        (fieldSims pc eabs 2000).getD i 0 * 0.6) =
      round4 ((fieldSims pt ets 1000).getD j 0 * 0.4 +
        (fieldSims pc eabs 2000).getD j 0 * 0.6)) :
    ∃ p q, p < q ∧
      (∃ hp : p < res.length, (res.get ⟨p, hp⟩).index = i) ∧
      (∃ hq : q < res.length, (res.get ⟨q, hq⟩).index = j) := by
  have hres := calculate_ok_inv h
  have hmi : recAt ets eabs (fieldSims pt ets 1000)
      (fieldSims pc eabs 2000) i ∈ res := by
    rw [hres]
    exact (List.mem_insertionSort _).mpr
      (List.mem_map.mpr ⟨i, List.mem_range.mpr (lt_trans hij hj), rfl⟩)
  have hmj : recAt ets eabs (fieldSims pt ets 1000)
      (fieldSims pc eabs 2000) j ∈ res := by
    rw [hres]
    exact (List.mem_insertionSort _).mpr
      (List.mem_map.mpr ⟨j, List.mem_range.mpr hj, rfl⟩)
  obtain ⟨p, hp, hpe⟩ := List.mem_iff_getElem.mp hmi
  obtain ⟨q, hq, hqe⟩ := List.mem_iff_getElem.mp hmj
  have hstab := calculate_res_stable h
  have hpair := List.pairwise_iff_getElem.mp hstab
  have hpe2 : res[p]? = some (recAt ets eabs (fieldSims pt ets 1000)
      (fieldSims pc eabs 2000) i) := by
    rw [List.getElem?_eq_getElem hp, hpe]
  have hqe2 : res[q]? = some (recAt ets eabs (fieldSims pt ets 1000)
      (fieldSims pc eabs 2000) j) := by
    rw [List.getElem?_eq_getElem hq, hqe]
  have hneq : p ≠ q := by
    intro he
    rw [he, hqe2] at hpe2
    have h3 : j = i := congrArg CandidateResult.index
      (Option.some_inj.mp hpe2)
    exact absurd h3 (ne_of_lt hij).symm
  rcases lt_or_gt_of_ne hneq with hlt | hgt
  · refine ⟨p, q, hlt, ⟨hp, ?_⟩, ⟨hq, ?_⟩⟩
    · rw [List.get_eq_getElem, hpe]
      rfl
    · rw [List.get_eq_getElem, hqe]
      rfl
  · exfalso
    have hP := hpair q p hq hp hgt
    rw [hpe, hqe] at hP
    exact absurd (hP hround.symm) (not_lt_of_gt hij)

/-- Witness for C9: on the engineered input, candidates 0 and 1 have raw
weighted scores `0.4/7225 ≠ 0.4/7310` that both round to `0.0001`; the
theorem places candidate 0 before candidate 1 in the sorted result. -/
theorem C9_witness :
    (calculate_cosine_similarity qTitle "" cexTitles cexAbstracts =
      .ok cexResult) ∧
    ((0 : ℕ) < 1 ∧ 1 < cexTitles.length) ∧
    ((fieldSims qTitle cexTitles 1000).getD 0 0 * 0.4 +
        (fieldSims "" cexAbstracts 2000).getD 0 0 * 0.6 ≠
      (fieldSims qTitle cexTitles 1000).getD 1 0 * 0.4 +
        (fieldSims "" cexAbstracts 2000).getD 1 0 * 0.6) ∧
    (∃ p q, p < q ∧
      (∃ hp : p < cexResult.length, (cexResult.get ⟨p, hp⟩).index = 0) ∧
      (∃ hq : q < cexResult.length, (cexResult.get ⟨q, hq⟩).index = 1)) := by
  have hraw : (fieldSims qTitle cexTitles 1000).getD 0 0 * 0.4 +
      (fieldSims "" cexAbstracts 2000).getD 0 0 * 0.6 ≠
    (fieldSims qTitle cexTitles 1000).getD 1 0 * 0.4 +
      (fieldSims "" cexAbstracts 2000).getD 1 0 * 0.6 := by
    rw [cex_fieldSims_t0, cex_fieldSims_t1, cex_fieldSims_a]
    simp only [getD_replicate_zero]
    norm_num
  have hround : round4 ((fieldSims qTitle cexTitles 1000).getD 0 0 * 0.4 +
      (fieldSims "" cexAbstracts 2000).getD 0 0 * 0.6) =
    round4 ((fieldSims qTitle cexTitles 1000).getD 1 0 * 0.4 +
      (fieldSims "" cexAbstracts 2000).getD 1 0 * 0.6) := by
    rw [cex_fieldSims_t0, cex_fieldSims_t1, cex_fieldSims_a]
    simp only [getD_replicate_zero]
    rw [round4, round4,
      show round (((1 : ℝ) / 7225 * 0.4 + 0 * 0.6) * 10000) = 1 from
        round_eq_of (by norm_num) (by norm_num),
      show round (((1 : ℝ) / 7310 * 0.4 + 0 * 0.6) * 10000) = 1 from
        round_eq_of (by norm_num) (by norm_num)]
  exact ⟨cex_calculate_eq, ⟨by norm_num, by decide⟩, hraw,
    C9_rounded_ties qTitle "" cexTitles cexAbstracts cexResult 0 1
      cex_calculate_eq (by norm_num) (by decide) hraw hround⟩

/-! ### Claim C7 (corrected): the amended statement -/

theorem getD_map_eq {α : Type} (f : α → ℝ) (l : List α) (j : ℕ) (x : α)
    (h : l[j]? = some x) : (l.map f).getD j 0 = f x := by
  rw [List.getD_eq_getElem?_getD, List.getElem?_map, h]
  rfl

theorem dotp_self_pos_of_pos {v : List ℝ} {k : ℕ} (hk : k < v.length)
    (hpos : 0 < v.getD k 0) : 0 < dotp v v := by
  rw [dotp, min_self]
  refine Finset.sum_pos' (fun i _ => mul_self_nonneg _)
    ⟨k, Finset.mem_range.mpr hk, mul_pos hpos hpos⟩

theorem fieldSims_self {q : String} {cands : List String} {j maxF : ℕ}
    (hj : cands[j]? = some q)
    (hne : docTokens (preprocess_text q) ≠ [])
    (hcap : (vocabOf (fieldDocs (preprocess_text q)
        (cands.map preprocess_text))).length ≤ maxF) :
    (fieldSims q cands maxF).getD j 0 = 1 := by
  obtain ⟨hjlt, hje⟩ := List.getElem?_eq_some.mp hj
  have hqne : preprocess_text q ≠ "" := by
    intro he
    rw [he] at hne
    exact hne rfl
  have hcne : cands.map preprocess_text ≠ [] := by
    intro he
    have h0 : cands.length = 0 := by
      have h1 := congrArg List.length he
      rw [List.length_map] at h1
      simpa using h1
    omega
  have hvocab : cappedVocab (fieldDocs (preprocess_text q)
      (cands.map preprocess_text)) maxF =
      vocabOf (fieldDocs (preprocess_text q) (cands.map preprocess_text)) := by
    rw [cappedVocab, if_pos hcap]
  obtain ⟨t, ht⟩ := List.exists_mem_of_ne_nil _ hne
  have htv : t ∈ vocabOf (fieldDocs (preprocess_text q)
      (cands.map preprocess_text)) := by
    rw [vocabOf_mem]
    refine List.mem_flatten.mpr ⟨docTokens (preprocess_text q), ?_, ht⟩
    rw [fieldDocs]
    exact List.mem_map.mpr ⟨preprocess_text q, List.mem_cons_self _ _, rfl⟩
  have hvne : vocabOf (fieldDocs (preprocess_text q)
      (cands.map preprocess_text)) ≠ [] := List.ne_nil_of_mem htv
  have htry : trySims (preprocess_text q) (cands.map preprocess_text) maxF =
      some ((cands.map preprocess_text).map (fun c =>
        cosineSim
          (tfidfVec (fieldDocs (preprocess_text q) (cands.map preprocess_text))
            (cappedVocab (fieldDocs (preprocess_text q)
              (cands.map preprocess_text)) maxF)
            (docTokens (preprocess_text q)))
          (tfidfVec (fieldDocs (preprocess_text q) (cands.map preprocess_text))
            (cappedVocab (fieldDocs (preprocess_text q)
              (cands.map preprocess_text)) maxF)
            (docTokens c)))) := by
    rw [trySims, if_neg (by rw [hvocab]; exact hvne)]
  rw [fieldSims_of_some ⟨hqne, hcne⟩ htry]
  have hcj : (cands.map preprocess_text)[j]? = some (preprocess_text q) := by
    rw [List.getElem?_map, hj]
    rfl
  rw [getD_map_eq _ _ _ _ hcj]
  rw [hvocab]
  obtain ⟨k, hk, hke⟩ := List.mem_iff_getElem.mp htv
  have hkv : (tfidfVec (fieldDocs (preprocess_text q)
      (cands.map preprocess_text))
      (vocabOf (fieldDocs (preprocess_text q) (cands.map preprocess_text)))
      (docTokens (preprocess_text q))).getD k 0 =
      ((docTokens (preprocess_text q)).count t : ℝ) *
        idf (fieldDocs (preprocess_text q) (cands.map preprocess_text)) t := by
    rw [tfidfVec, getD_map_eq _ _ _ t (by rw [List.getElem?_eq_getElem hk, hke])]
  have hpos : 0 < dotp
      (tfidfVec (fieldDocs (preprocess_text q) (cands.map preprocess_text))
        (vocabOf (fieldDocs (preprocess_text q) (cands.map preprocess_text)))
        (docTokens (preprocess_text q)))
      (tfidfVec (fieldDocs (preprocess_text q) (cands.map preprocess_text))
        (vocabOf (fieldDocs (preprocess_text q) (cands.map preprocess_text)))
        (docTokens (preprocess_text q))) := by
    refine dotp_self_pos_of_pos (k := k) ?_ ?_
    · rw [tfidfVec, List.length_map]
      exact hk
    · rw [hkv]
      exact mul_pos (by exact_mod_cast List.count_pos_iff.mpr ht)
        (idf_pos _ _)
  exact cosineSim_self hpos

/-- Claim C7 as amended: a candidate whose title and abstract are exact
string matches of the query title and concept (non-empty, not stop-words
only) reports `overall_similarity = 1.0`, provided additionally that neither
field's vocabulary exceeds its feature cap (1000 titles / 2000 abstracts) —
without that proviso the capping can discard all of the candidate's terms,
see the counterexample. -/
theorem C7_self_similarity (pt pc : String) (ets eabs : List String)
    (j : ℕ) (hlen : ets.length = eabs.length)
    (hjt : ets[j]? = some pt) (hja : eabs[j]? = some pc)
    (hne_t : docTokens (preprocess_text pt) ≠ [])
    (hne_a : docTokens (preprocess_text pc) ≠ [])
    (hcap_t : (vocabOf (fieldDocs (preprocess_text pt)
        (ets.map preprocess_text))).length ≤ 1000)
    (hcap_a : (vocabOf (fieldDocs (preprocess_text pc)
        (eabs.map preprocess_text))).length ≤ 2000) :
    ∃ res, calculate_cosine_similarity pt pc ets eabs = .ok res ∧
      ∃ r ∈ res, r.index = j ∧ r.overall_similarity = 1 := by
  refine ⟨_, calculate_eq_ok (le_of_eq hlen), ?_⟩
  obtain ⟨hjlt, _⟩ := List.getElem?_eq_some.mp hjt
  refine ⟨recAt ets eabs (fieldSims pt ets 1000) (fieldSims pc eabs 2000) j,
    (List.mem_insertionSort _).mpr
      (List.mem_map.mpr ⟨j, List.mem_range.mpr hjlt, rfl⟩), rfl, ?_⟩
  show round4 ((fieldSims pt ets 1000).getD j 0 * 0.4 +
    (fieldSims pc eabs 2000).getD j 0 * 0.6) = 1
  rw [fieldSims_self hjt hne_t hcap_t, fieldSims_self hja hne_a hcap_a,
    show (1 : ℝ) * 0.4 + 1 * 0.6 = 1 by norm_num]
  exact round4_one

/-- Witness for the amended C7 at a concrete input. -/
theorem C7_witness :
    ((["machine learning"] : List String).length =
      (["fraud detection"] : List String).length ∧
     (["machine learning"] : List String)[0]? = some "machine learning" ∧
     docTokens (preprocess_text "machine learning") ≠ [] ∧
     (vocabOf (fieldDocs (preprocess_text "machine learning")
        ((["machine learning"] : List String).map preprocess_text))).length ≤
       1000) ∧
    (∃ res, calculate_cosine_similarity "machine learning" "fraud detection"
        ["machine learning"] ["fraud detection"] = .ok res ∧
      ∃ r ∈ res, r.index = 0 ∧ r.overall_similarity = 1) :=
  ⟨⟨rfl, by decide, by decide, by decide⟩,
    C7_self_similarity "machine learning" "fraud detection"
      ["machine learning"] ["fraud detection"] 0 rfl (by decide) (by decide)
      (by decide) (by decide) (by decide) (by decide)⟩

/-! ### Claim C7 (corrected): the counterexample

Symbolic evaluation of the flooding input: the tokenizer lemmas handle the
space-joined word list, the counting lemmas give total term frequencies 2
for "qq" versus 3 for each flood word, and the capped vocabulary drops
"qq", zeroing the query's title vector. -/

theorem splitTokAux_word : ∀ (w cs acc : List Char),
    (∀ c ∈ w, isWordChar c = true) →
    splitTokAux (w ++ cs) acc = splitTokAux cs (w.reverse ++ acc)
  | [], cs, acc, _ => by simp
  | c :: w, cs, acc, h => by
    rw [List.cons_append, splitTokAux,
      if_pos (h c (List.mem_cons_self c w)),
      splitTokAux_word w cs (c :: acc)
        (fun x hx => h x (List.mem_cons_of_mem c hx))]
    simp

theorem splitTokAux_space (cs acc : List Char) (h : acc ≠ []) :
    splitTokAux (' ' :: cs) acc = acc.reverse :: splitTokAux cs [] := by
  rw [splitTokAux, if_neg (by decide), if_neg (by simpa using h)]

theorem splitTokAux_nil_acc (acc : List Char) (h : acc ≠ []) :
    splitTokAux [] acc = [acc.reverse] := by
  rw [splitTokAux, if_neg (by simpa using h)]

theorem splitTok_joinW : ∀ ws : List (List Char),
    (∀ w ∈ ws, w ≠ [] ∧ ∀ c ∈ w, isWordChar c = true) →
    splitTok (joinW ws) = ws
  | [], _ => rfl
  | [w], h => by
    obtain ⟨hne, hw⟩ := h w (List.mem_cons_self w [])
    rw [splitTok, joinW, show w = w ++ [] by simp,
      splitTokAux_word w [] [] hw]
    rw [List.append_nil, List.append_nil,
      splitTokAux_nil_acc _ (by simpa using hne), List.reverse_reverse]
  | w :: x :: ws, h => by
    obtain ⟨hne, hw⟩ := h w (List.mem_cons_self _ _)
    rw [splitTok, joinW, splitTokAux_word w _ [] hw, List.append_nil,
      splitTokAux_space _ _ (by simpa using hne), List.reverse_reverse]
    have := splitTok_joinW (x :: ws)
      (fun y hy => h y (List.mem_cons_of_mem w hy))
    rw [splitTok] at this
    rw [this]

theorem mem_joinW : ∀ (ws : List (List Char)) (c : Char), c ∈ joinW ws →
    c = ' ' ∨ ∃ w ∈ ws, c ∈ w
  | [], c, h => by simp [joinW] at h
  | [w], c, h => Or.inr ⟨w, List.mem_cons_self w [], by simpa [joinW] using h⟩
  | w :: x :: ws, c, h => by
    rw [joinW, List.mem_append, List.mem_cons] at h
    rcases h with h | h | h
    · exact Or.inr ⟨w, List.mem_cons_self _ _, h⟩
    · exact Or.inl h
    · rcases mem_joinW (x :: ws) c h with h2 | ⟨y, hy, hc⟩
      · exact Or.inl h2
      · exact Or.inr ⟨y, List.mem_cons_of_mem w hy, hc⟩

theorem word_not_space {c : Char} (h : isWordChar c = true) :
    isSpaceChar c = false := by
  by_contra hc
  have hs : isSpaceChar c = true := by
    cases h2 : isSpaceChar c
    · exact absurd h2 hc
    · rfl
  rw [isSpaceChar] at hs
  rcases Bool.or_eq_true_iff.mp hs with h1 | h1
  · rcases Bool.or_eq_true_iff.mp h1 with h2 | h2
    · rcases Bool.or_eq_true_iff.mp h2 with h3 | h3
      · rw [show c = ' ' by exact decide_eq_true_eq.mp h3] at h
        exact absurd h (by decide)
      · rw [show c = '\t' by exact decide_eq_true_eq.mp h3] at h
        exact absurd h (by decide)
    · rw [show c = '\n' by exact decide_eq_true_eq.mp h2] at h
      exact absurd h (by decide)
  · rw [show c = '\r' by exact decide_eq_true_eq.mp h1] at h
    exact absurd h (by decide)

theorem joinW_ne_nil : ∀ {ws : List (List Char)}, ws ≠ [] →
    (∀ w ∈ ws, w ≠ []) → joinW ws ≠ []
  | [], h, _ => absurd rfl h
  | [w], _, hg => by
    rw [joinW]
    exact hg w (List.mem_cons_self w [])
  | w :: x :: ws, _, hg => by
    rw [joinW]
    intro he
    have := congrArg List.length he
    rw [List.length_append, List.length_cons] at this
    simp at this

theorem joinW_head : ∀ (ws : List (List Char)), ws ≠ [] →
    (∀ w ∈ ws, w ≠ [] ∧ ∀ c ∈ w, isWordChar c = true) →
    ∃ c cs, joinW ws = c :: cs ∧ isWordChar c = true
  | [], h, _ => absurd rfl h
  | [w], _, hg => by
    obtain ⟨hne, hw⟩ := hg w (List.mem_cons_self w [])
    obtain ⟨c, cs, hc⟩ := List.exists_cons_of_ne_nil hne
    exact ⟨c, cs, by rw [joinW, hc], hw c (by rw [hc]; exact List.mem_cons_self _ _)⟩
  | w :: x :: ws, _, hg => by
    obtain ⟨hne, hw⟩ := hg w (List.mem_cons_self _ _)
    obtain ⟨c, cs, hc⟩ := List.exists_cons_of_ne_nil hne
    refine ⟨c, cs ++ ' ' :: joinW (x :: ws), ?_,
      hw c (by rw [hc]; exact List.mem_cons_self _ _)⟩
    rw [joinW, hc]
    rfl

theorem joinW_reverse_head : ∀ (ws : List (List Char)), ws ≠ [] →
    (∀ w ∈ ws, w ≠ [] ∧ ∀ c ∈ w, isWordChar c = true) →
    ∃ c cs, (joinW ws).reverse = c :: cs ∧ isWordChar c = true
  | [], h, _ => absurd rfl h
  | [w], _, hg => by
    obtain ⟨hne, hw⟩ := hg w (List.mem_cons_self w [])
    have hrne : w.reverse ≠ [] := by simpa using hne
    obtain ⟨c, cs, hc⟩ := List.exists_cons_of_ne_nil hrne
    refine ⟨c, cs, by rw [joinW, hc], ?_⟩
    have : c ∈ w.reverse := by rw [hc]; exact List.mem_cons_self _ _
    exact hw c (List.mem_reverse.mp this)
  | w :: x :: ws, _, hg => by
    obtain ⟨c, cs, hc, hcw⟩ := joinW_reverse_head (x :: ws) (by simp)
      (fun y hy => hg y (List.mem_cons_of_mem w hy))
    refine ⟨c, cs ++ ' ' :: w.reverse, ?_, hcw⟩
    rw [joinW, List.reverse_append, List.reverse_cons, hc]
    simp

theorem stripChars_joinW (ws : List (List Char)) (hne : ws ≠ [])
    (hg : ∀ w ∈ ws, w ≠ [] ∧ ∀ c ∈ w, isWordChar c = true) :
    stripChars (joinW ws) = joinW ws := by
  obtain ⟨c, cs, hc, hcw⟩ := joinW_head ws hne hg
  obtain ⟨d, ds, hd, hdw⟩ := joinW_reverse_head ws hne hg
  rw [stripChars, hc, List.dropWhile_cons, if_neg
      (by rw [word_not_space hcw]; simp), ← hc, hd, List.dropWhile_cons,
    if_neg (by rw [word_not_space hdw]; simp), ← hd, List.reverse_reverse]

theorem digit_char_good : ∀ d, d < 10 →
    isWordChar (Char.ofNat (48 + d)) = true ∧
    lowerChar (Char.ofNat (48 + d)) = Char.ofNat (48 + d) ∧
    (Char.ofNat (48 + d)).toNat = 48 + d := by decide

theorem mem_floodIdx {i : ℕ} (h : i ∈ floodIdx) : i < 1000 := by
  obtain ⟨j, hj, hmem⟩ := List.mem_flatMap.mp h
  rw [List.eq_of_mem_replicate hmem]
  exact List.mem_range.mp hj

theorem floodIdx_ne_nil : floodIdx ≠ [] :=
  List.ne_nil_of_mem (List.mem_flatMap.mpr
    ⟨0, List.mem_range.mpr (by norm_num),
      List.mem_replicate.mpr ⟨by norm_num, rfl⟩⟩)

theorem floodWordChars_good {i : ℕ} (hi : i < 1000) :
    floodWordChars i ≠ [] ∧ (∀ c ∈ floodWordChars i,
      isWordChar c = true ∧ lowerChar c = c) := by
  have h1 := digit_char_good (i / 100) (by omega)
  have h2 := digit_char_good (i / 10 % 10) (by omega)
  have h3 := digit_char_good (i % 10) (by omega)
  refine ⟨by simp [floodWordChars], ?_⟩
  intro c hc
  rw [floodWordChars] at hc
  fin_cases hc
  · exact ⟨by decide, by decide⟩
  · exact ⟨h1.1, h1.2.1⟩
  · exact ⟨h2.1, h2.2.1⟩
  · exact ⟨h3.1, h3.2.1⟩

theorem floodWord_inj {i j : ℕ} (hi : i < 1000) (hj : j < 1000)
    (h : floodWord i = floodWord j) : i = j := by
  have hd := congrArg String.data h
  rw [floodWord, floodWord] at hd
  simp only [floodWordChars, List.cons.injEq] at hd
  obtain ⟨-, h1, h2, h3, -⟩ := hd
  have e1 := congrArg Char.toNat h1
  have e2 := congrArg Char.toNat h2
  have e3 := congrArg Char.toNat h3
  rw [(digit_char_good (i / 100) (by omega)).2.2,
    (digit_char_good (j / 100) (by omega)).2.2] at e1
  rw [(digit_char_good (i / 10 % 10) (by omega)).2.2,
    (digit_char_good (j / 10 % 10) (by omega)).2.2] at e2
  rw [(digit_char_good (i % 10) (by omega)).2.2,
    (digit_char_good (j % 10) (by omega)).2.2] at e3
  omega

theorem floodWord_ne_qq (i : ℕ) : floodWord i ≠ "qq" := by
  intro h
  have := congrArg (fun s => s.data.length) h
  simp [floodWord, floodWordChars] at this

theorem flood_words_good : ∀ w ∈ floodIdx.map floodWordChars,
    w ≠ [] ∧ ∀ c ∈ w, isWordChar c = true := by
  intro w hw
  obtain ⟨i, hi, rfl⟩ := List.mem_map.mp hw
  obtain ⟨h1, h2⟩ := floodWordChars_good (mem_floodIdx hi)
  exact ⟨h1, fun c hc => (h2 c hc).1⟩

theorem flood_chars_lower : ∀ c ∈ joinW (floodIdx.map floodWordChars),
    lowerChar c = c := by
  intro c hc
  rcases mem_joinW _ c hc with rfl | ⟨w, hw, hcw⟩
  · decide
  · obtain ⟨i, hi, rfl⟩ := List.mem_map.mp hw
    exact ((floodWordChars_good (mem_floodIdx hi)).2 c hcw).2

theorem flood_data_eq :
    floodTitle.data.map lowerChar = joinW (floodIdx.map floodWordChars) := by
  rw [floodTitle]
  exact (List.map_congr_left (fun c hc => flood_chars_lower c hc)).trans
    (List.map_id _)

theorem flood_map_idx_ne_nil : floodIdx.map floodWordChars ≠ [] := by
  intro h
  exact floodIdx_ne_nil (by simpa using h)

theorem flood_pre : preprocess_text floodTitle = floodTitle := by
  rw [preprocess_text, if_neg, flood_data_eq,
    stripChars_joinW _ flood_map_idx_ne_nil flood_words_good]
  · rw [floodTitle]
  · rw [floodTitle]
    intro h
    have h2 : joinW (floodIdx.map floodWordChars) = [] :=
      congrArg String.data h
    exact joinW_ne_nil flood_map_idx_ne_nil
      (fun w hw => (flood_words_good w hw).1) h2

theorem stop_head : ∀ s ∈ stopWords, s.data.head? ≠ some 'x' := by decide

theorem floodWord_not_stop (i : ℕ) :
    stopWords.contains (floodWord i) = false := by
  cases hc : stopWords.contains (floodWord i)
  · rfl
  · exfalso
    have hmem : floodWord i ∈ stopWords := by
      simpa using hc
    have := stop_head _ hmem
    rw [floodWord, floodWordChars] at this
    exact this rfl

theorem flood_docTokens : docTokens floodTitle = floodToks := by
  rw [docTokens, flood_data_eq,
    show splitTok (joinW (floodIdx.map floodWordChars)) =
      floodIdx.map floodWordChars from splitTok_joinW _ flood_words_good]
  have hlen : (floodIdx.map floodWordChars).filter
      (fun t => 2 ≤ t.length) = floodIdx.map floodWordChars := by
    apply List.filter_eq_self.mpr
    intro w hw
    obtain ⟨i, _, rfl⟩ := List.mem_map.mp hw
    rfl
  rw [hlen, List.map_map, show String.mk ∘ floodWordChars = floodWord from rfl]
  apply List.filter_eq_self.mpr
  intro t ht
  obtain ⟨i, hi, rfl⟩ := List.mem_map.mp ht
  have hns : floodWord i ∉ stopWords := by
    intro hmem
    have hct : stopWords.contains (floodWord i) = true := by simpa using hmem
    rw [floodWord_not_stop i] at hct
    exact absurd hct (by simp)
  simp [hns]

theorem count_flatMap_replicate (t : String) : ∀ l : List ℕ,
    ((l.flatMap (fun j => List.replicate 3 (floodWord j))).count t) =
      3 * (l.map floodWord).count t
  | [] => by simp
  | j :: l => by
    rw [List.flatMap_cons, List.count_append, List.map_cons, List.count_cons,
      count_flatMap_replicate t l, List.count_replicate]
    split
    · ring
    · rename_i hne
      have : ¬(floodWord j = t) := by
        intro he
        exact hne (by simp [he])
      simp [this]

theorem floodToks_eq :
    floodToks = (List.range 1000).flatMap
      (fun j => List.replicate 3 (floodWord j)) := by
  rw [floodToks, floodIdx, List.map_flatMap]
  simp [List.map_replicate]

theorem floodVocab_nodup : floodVocab.Nodup := by
  rw [floodVocab]
  refine List.Nodup.map_on ?_ (List.nodup_range 1000)
  intro x hx y hy h
  exact floodWord_inj (List.mem_range.mp hx) (List.mem_range.mp hy) h

theorem count_floodToks {i : ℕ} (hi : i < 1000) :
    floodToks.count (floodWord i) = 3 := by
  rw [floodToks_eq, count_flatMap_replicate]
  rw [show (List.range 1000).map floodWord = floodVocab from rfl]
  rw [List.count_eq_one_of_mem floodVocab_nodup
    (List.mem_map.mpr ⟨i, List.mem_range.mpr hi, rfl⟩)]

theorem qq_not_mem_floodToks : "qq" ∉ floodToks := by
  intro h
  obtain ⟨i, _, he⟩ := List.mem_map.mp h
  exact floodWord_ne_qq i he

theorem count_qq_floodToks : floodToks.count "qq" = 0 :=
  List.count_eq_zero.mpr qq_not_mem_floodToks

theorem totalTf_flood_qq : totalTf floodDocs "qq" = 2 := by
  rw [totalTf, floodDocs]
  show (["qq"] ++ (["qq"] ++ (floodToks ++ []))).count "qq" = 2
  rw [List.count_append, List.count_append, List.count_append,
    count_qq_floodToks]
  rfl

theorem totalTf_flood_w {i : ℕ} (hi : i < 1000) :
    totalTf floodDocs (floodWord i) = 3 := by
  rw [totalTf, floodDocs]
  show (["qq"] ++ (["qq"] ++ (floodToks ++ []))).count (floodWord i) = 3
  rw [List.count_append, List.count_append, List.count_append,
    count_floodToks hi]
  have h1 : (["qq"] : List String).count (floodWord i) = 0 :=
    List.count_eq_zero.mpr (by simpa using floodWord_ne_qq i)
  rw [h1]
  rfl

theorem contains_false_of_not_mem {l : List String} {a : String}
    (h : a ∉ l) : l.contains a = false := by
  cases hc : l.contains a
  · rfl
  · exact absurd (by simpa using hc) h

theorem dedupAux_flood : ∀ (l : List ℕ) (seen : List String),
    List.Pairwise (fun a b => floodWord a ≠ floodWord b) l →
    (∀ i ∈ l, floodWord i ∉ seen) →
    dedupAux (l.flatMap (fun j => List.replicate 3 (floodWord j))) seen =
      l.map floodWord
  | [], seen, _, _ => by simp [dedupAux]
  | j :: l, seen, hpw, hseen => by
    obtain ⟨hj, hl⟩ := List.pairwise_cons.mp hpw
    have hns : floodWord j ∉ seen := hseen j (List.mem_cons_self j l)
    rw [List.flatMap_cons]
    show dedupAux (floodWord j :: floodWord j :: floodWord j ::
      l.flatMap (fun j => List.replicate 3 (floodWord j))) seen = _
    rw [dedupAux, if_neg (by rw [contains_false_of_not_mem hns]; simp),
      dedupAux, if_pos (by simp), dedupAux, if_pos (by simp)]
    rw [dedupAux_flood l (floodWord j :: seen) hl ?_]
    · rfl
    · intro i hi hmem
      rcases List.mem_cons.mp hmem with he | hmem2
      · exact hj i hi he.symm
      · exact hseen i (List.mem_cons_of_mem j hi) hmem2

theorem flood_vocabOf : vocabOf floodDocs = "qq" :: floodVocab := by
  rw [vocabOf, floodDocs]
  show dedupFS (["qq"] ++ (["qq"] ++ (floodToks ++ []))) = _
  rw [List.append_nil]
  show dedupAux ("qq" :: "qq" :: floodToks) [] = _
  rw [dedupAux, if_neg (by simp), dedupAux, if_pos (by simp)]
  rw [floodToks_eq, dedupAux_flood (List.range 1000) ["qq"] ?_ ?_]
  · rfl
  · refine (List.pairwise_lt_range 1000).imp_of_mem ?_
    intro a b ha hb hab he
    exact absurd (floodWord_inj (List.mem_range.mp ha)
      (List.mem_range.mp hb) he) (ne_of_lt hab)
  · intro i _ hmem
    rcases List.mem_cons.mp hmem with he | hmem2
    · exact floodWord_ne_qq i he
    · exact absurd hmem2 (List.not_mem_nil _)

theorem insertionSort_all {α : Type} (r : α → α → Prop) [DecidableRel r] :
    ∀ l : List α, (∀ x ∈ l, ∀ y ∈ l, r x y) → l.insertionSort r = l
  | [], _ => rfl
  | a :: l, h => by
    rw [List.insertionSort, insertionSort_all r l
      (fun x hx y hy => h x (List.mem_cons_of_mem a hx) y
        (List.mem_cons_of_mem a hy))]
    cases l with
    | nil => rfl
    | cons b l =>
      rw [List.orderedInsert, if_pos (h a (List.mem_cons_self _ _) b
        (List.mem_cons_of_mem a (List.mem_cons_self _ _)))]

theorem orderedInsert_last {α : Type} (r : α → α → Prop) [DecidableRel r]
    (a : α) : ∀ l : List α, (∀ b ∈ l, ¬ r a b) →
      l.orderedInsert r a = l ++ [a]
  | [], _ => rfl
  | b :: l, h => by
    rw [List.orderedInsert, if_neg (h b (List.mem_cons_self b l)),
      orderedInsert_last r a l (fun x hx => h x (List.mem_cons_of_mem b hx))]
    rfl

theorem flood_capped : cappedVocab floodDocs 1000 = floodVocab := by
  have hlen : floodVocab.length = 1000 := by
    rw [floodVocab, List.length_map, List.length_range]
  rw [cappedVocab, flood_vocabOf, if_neg (by
    rw [List.length_cons, hlen]
    norm_num)]
  rw [List.insertionSort]
  rw [insertionSort_all _ floodVocab ?_]
  · rw [orderedInsert_last _ _ floodVocab ?_]
    · exact List.take_left' hlen
    · intro b hb
      obtain ⟨i, hi, rfl⟩ := List.mem_map.mp hb
      rw [keyRel]
      rw [totalTf_flood_qq, totalTf_flood_w (List.mem_range.mp hi)]
      omega
  · intro x hx y hy
    obtain ⟨i, hi, rfl⟩ := List.mem_map.mp hx
    obtain ⟨j, hj, rfl⟩ := List.mem_map.mp hy
    rw [keyRel, totalTf_flood_w (List.mem_range.mp hi),
      totalTf_flood_w (List.mem_range.mp hj)]

theorem dotp_zero_left {u v : List ℝ} (hu : ∀ x ∈ u, x = 0) :
    dotp u v = 0 := by
  rw [dotp]
  refine Finset.sum_eq_zero ?_
  intro i _
  have h0 : u.getD i 0 = 0 := by
    rw [List.getD_eq_getElem?_getD]
    cases h : u[i]? with
    | none => rfl
    | some a =>
      obtain ⟨hi, rfl⟩ := List.getElem?_eq_some.mp h
      exact hu _ (List.getElem_mem hi)
  rw [h0, zero_mul]

theorem cosineSim_zero_left {u v : List ℝ} (hu : ∀ x ∈ u, x = 0) :
    cosineSim u v = 0 := by
  rw [cosineSim, dotp_zero_left hu, zero_div]

theorem flood_qvec_zero :
    ∀ x ∈ tfidfVec floodDocs floodVocab ["qq"], x = 0 := by
  intro x hx
  obtain ⟨t, ht, rfl⟩ := List.mem_map.mp hx
  obtain ⟨i, _, rfl⟩ := List.mem_map.mp ht
  have hc : (["qq"] : List String).count (floodWord i) = 0 :=
    List.count_eq_zero.mpr (by simpa using floodWord_ne_qq i)
  rw [hc]
  simp

theorem flood_map_pre : floodEts.map preprocess_text = ["qq", floodTitle] := by
  rw [floodEts]
  rw [List.map_cons, List.map_cons, List.map_nil, flood_pre]
  rfl

theorem flood_fieldDocs :
    fieldDocs (preprocess_text floodPt) (floodEts.map preprocess_text) =
      floodDocs := by
  rw [flood_map_pre, show preprocess_text floodPt = "qq" from rfl, fieldDocs]
  rw [List.map_cons, List.map_cons, List.map_cons, List.map_nil,
    flood_docTokens]
  rfl

theorem flood_fieldSims_t0 :
    (fieldSims floodPt floodEts 1000).getD 0 0 = 0 := by
  have hvokne : cappedVocab (fieldDocs (preprocess_text floodPt)
      (floodEts.map preprocess_text)) 1000 ≠ [] := by
    rw [flood_fieldDocs, flood_capped]
    intro h
    have := congrArg List.length h
    rw [floodVocab, List.length_map, List.length_range] at this
    simp at this
  have htry : trySims (preprocess_text floodPt)
      (floodEts.map preprocess_text) 1000 =
      some ((floodEts.map preprocess_text).map (fun c =>
        cosineSim
          (tfidfVec (fieldDocs (preprocess_text floodPt)
              (floodEts.map preprocess_text))
            (cappedVocab (fieldDocs (preprocess_text floodPt)
              (floodEts.map preprocess_text)) 1000)
            (docTokens (preprocess_text floodPt)))
          (tfidfVec (fieldDocs (preprocess_text floodPt)
              (floodEts.map preprocess_text))
            (cappedVocab (fieldDocs (preprocess_text floodPt)
              (floodEts.map preprocess_text)) 1000)
            (docTokens c)))) := by
    rw [trySims, if_neg hvokne]
  rw [fieldSims_of_some ⟨by decide, by rw [flood_map_pre]; simp⟩ htry]
  have h0 : (floodEts.map preprocess_text)[0]? = some "qq" := by
    rw [flood_map_pre]
    rfl
  rw [getD_map_eq _ _ _ _ h0]
  rw [flood_fieldDocs, flood_capped,
    show docTokens (preprocess_text floodPt) = ["qq"] by decide,
    show docTokens "qq" = ["qq"] by decide]
  exact cosineSim_zero_left flood_qvec_zero

theorem flood_fieldSims_a0 :
    (fieldSims floodPc floodEabs 2000).getD 0 0 = 1 := by
  refine fieldSims_self ?_ (by decide) (by decide)
  rfl

theorem floodRec0_ov : floodRec0.overall_similarity = 3 / 5 := by
  show round4 ((fieldSims floodPt floodEts 1000).getD 0 0 * 0.4 +
    (fieldSims floodPc floodEabs 2000).getD 0 0 * 0.6) = 3 / 5
  rw [flood_fieldSims_t0, flood_fieldSims_a0]
  rw [show (0 : ℝ) * 0.4 + 1 * 0.6 = 0.6 by norm_num]
  rw [round4, show round ((0.6 : ℝ) * 10000) = 6000 from
    round_eq_of (by norm_num) (by norm_num)]
  norm_num

/-- Counterexample to claim C7 as stated: candidate 0's title and abstract
are exact matches of the query title "qq" and concept "zz" (non-empty, not
stop words), yet its reported overall_similarity is 0.6, not 1.0 — the
1001-term title vocabulary is capped to 1000 terms by total frequency,
discarding "qq" and zeroing the title cosine. -/
theorem C7_counterexample :
    floodEts[0]? = some floodPt ∧ floodEabs[0]? = some floodPc ∧
    floodEts.length = floodEabs.length ∧
    docTokens (preprocess_text floodPt) ≠ [] ∧
    docTokens (preprocess_text floodPc) ≠ [] ∧
    calculate_cosine_similarity floodPt floodPc floodEts floodEabs =
      .ok floodResult ∧
    floodRec0 ∈ floodResult ∧ floodRec0.index = 0 ∧
    floodRec0.overall_similarity ≠ 1 := by
  refine ⟨rfl, rfl, rfl, by decide, by decide, ?_, ?_, rfl, ?_⟩
  · rw [floodResult]
    exact calculate_eq_ok (by rw [show floodEts.length = 2 from rfl]; rfl)
  · rw [floodResult]
    exact (List.mem_insertionSort _).mpr
      (List.mem_map.mpr ⟨0, List.mem_range.mpr (by rw [show floodEts.length = 2 from rfl]; norm_num), rfl⟩)
  · rw [floodRec0_ov]
    norm_num

end DetectionSystem
